import Mathlib

/-!
# Frame allocator and page-table manager (kern/kalloc.c, kern/vm.c)

A shallow embedding of the kernel's physical-frame allocator and of its
four-level page-table code.  Memory is a byte-addressed map; pointers are
natural numbers below `2 ^ 64`; the free list lives inside the free frames
themselves, exactly as `struct run` does in the C source.
-/

namespace Kern

/-! ## Machine model -/

/-- Byte-addressed memory: address to byte value. -/
abbrev Mem := Nat → Nat

/-- Width of a pointer / `uint64_t`. -/
def WORD : Nat := 2 ^ 64

/-- The page size; kalloc.c documents it as "Allocate one 4096-byte page". -/
def PGSIZE : Nat := 4096

/-- The raw memory-fill primitive `memset(dst, c, n)`: `n` bytes from `dst`
become the byte `c`. -/
def memset (m : Mem) (dst c n : Nat) : Mem :=
  fun a => if dst ≤ a ∧ a < dst + n then c % 256 else m a

/-- Read of a 64-bit little-endian word (a pointer or a page-table entry). -/
def load64 (m : Mem) (a : Nat) : Nat :=
  m a % 256 + (m (a + 1) % 256) * 256 ^ 1 + (m (a + 2) % 256) * 256 ^ 2
    + (m (a + 3) % 256) * 256 ^ 3 + (m (a + 4) % 256) * 256 ^ 4
    + (m (a + 5) % 256) * 256 ^ 5 + (m (a + 6) % 256) * 256 ^ 6
    + (m (a + 7) % 256) * 256 ^ 7

/-- Write of a 64-bit little-endian word. -/
def store64 (m : Mem) (a v : Nat) : Mem :=
  fun x => if a ≤ x ∧ x < a + 8 then (v / 256 ^ (x - a)) % 256 else m x

/-- The boot-time constants the allocator consumes: `KERNBASE` and `PHYSTOP`
of memlayout.h and the linker symbol `end` (end of the kernel image). -/
structure Layout where
  KERNBASE : Nat
  PHYSTOP : Nat
  kernel_end : Nat

/-- Modelled from the spec: the macro `V2P` of memlayout.h, which is not part
of the sources; kernel virtual to physical, `(uint64_t)a - KERNBASE`. -/
def V2P (L : Layout) (a : Nat) : Nat :=
  (a + (WORD - L.KERNBASE % WORD)) % WORD

/-- Modelled from the spec: the macro `P2V` of memlayout.h, which is not part
of the sources; physical to kernel virtual, `a + KERNBASE`. -/
def P2V (L : Layout) (a : Nat) : Nat :=
  (a + L.KERNBASE) % WORD

/-- Modelled from the spec: the macro `ROUNDDOWN`, which is not part of the
sources; rounds an address down to a multiple of `n`. -/
def ROUNDDOWN (a n : Nat) : Nat := a - a % n

/-- Modelled from the spec: the macro `ROUNDUP`, which is not part of the
sources; rounds an address up to a multiple of `n` in 64-bit arithmetic. -/
def ROUNDUP (a n : Nat) : Nat := ROUNDDOWN ((a + n - 1) % WORD) n

/-- Sanity conditions on the boot-time constants: the kernel image ends at a
non-null address inside the kernel window, and the top of physical memory is
representable as a kernel virtual address. -/
def Layout.WF (L : Layout) : Prop :=
  0 < L.kernel_end ∧ L.KERNBASE ≤ L.kernel_end ∧ L.KERNBASE + L.PHYSTOP < WORD

instance (L : Layout) : Decidable L.WF := by
  unfold Layout.WF; infer_instance

/-- The allocator state: memory together with `kmem.free_list`. -/
structure Kmem where
  mem : Mem
  free_list : Nat

/-- Ways a call can fail to return: the fatal-abort primitive `panic`, or a
loop of the model running out of its iteration budget. -/
inductive Fault where
  | panic (msg : String)
  | outOfFuel
  deriving DecidableEq, Repr

/-- Result of a call that may reach the fatal path. -/
abbrev Exec (α : Type) := Except Fault α

/-! ## kern/kalloc.c -/

/-- The function `kfree(v)`: check the address, fill the page with junk, link it in front
of the free list. -/
def kfree (L : Layout) (s : Kmem) (v : Nat) : Exec Kmem :=
  if v % PGSIZE ≠ 0 ∨ v < L.kernel_end ∨ V2P L v ≥ L.PHYSTOP then
    Except.error (Fault.panic "kfree")
  else
    let m1 := memset s.mem v 1 PGSIZE
    Except.ok ⟨store64 m1 v s.free_list, v⟩

/-- The loop of `free_range`: `for (; p + PGSIZE <= vend; p += PGSIZE) kfree(p)`.
The pointer sum `p + PGSIZE` is a 64-bit value: it wraps around at `2 ^ 64`,
in the test and in the increment.  `fuel` bounds the number of iterations. -/
def free_range_loop (L : Layout) (vend : Nat) : Nat → Nat → Kmem → Exec Kmem
  | 0, _, _ => Except.error Fault.outOfFuel
  | fuel + 1, p, s =>
    if (p + PGSIZE) % WORD ≤ vend then
      match kfree L s p with
      | Except.ok s1 => free_range_loop L vend fuel ((p + PGSIZE) % WORD) s1
      | Except.error e => Except.error e
    else Except.ok s

/-- The function `free_range(vstart, vend)`: free page by page from the
rounded-up start.  The test of the loop and the check of `kfree` depend on
`p` alone, so a run that has not ended after all `2 ^ 64 / PGSIZE` page
addresses never ends: one iteration more than that is the budget. -/
def free_range (L : Layout) (s : Kmem) (vstart vend : Nat) : Exec Kmem :=
  free_range_loop L vend (WORD / PGSIZE + 1) (ROUNDUP vstart PGSIZE) s

/-- The function `alloc_init()`: `free_range(end, P2V(PHYSTOP))`. -/
def alloc_init (L : Layout) (s : Kmem) : Exec Kmem :=
  free_range L s L.kernel_end (P2V L L.PHYSTOP)

/-- The function `kalloc()`: returns the pointer (0 when out of memory) and the new state.
The page is zero-filled first and `v->next` is read afterwards, in the order
of the source. -/
def kalloc (s : Kmem) : Nat × Kmem :=
  if s.free_list = 0 then (0, s)
  else
    let v := s.free_list
    let m1 := memset s.mem v 0 PGSIZE
    (v, ⟨m1, load64 m1 v⟩)

/-- Modelled from the spec: the macro `assert` of console.h, which is not part
of the sources; a false condition reaches the fatal-abort primitive. -/
def assert (c : Bool) : Exec Unit :=
  if c then Except.ok () else Except.error (Fault.panic "assert")

/-- The loop of `check_free_list`: `for (p = kmem.free_list; p; p = p->next)
assert(p > end)`; `fuel` bounds the number of nodes visited. -/
def check_free_list_loop (L : Layout) (m : Mem) : Nat → Nat → Exec Unit
  | 0, _ => Except.error Fault.outOfFuel
  | fuel + 1, p =>
    if p = 0 then Except.ok ()
    else
      match assert (decide (p > L.kernel_end)) with
      | Except.ok _ => check_free_list_loop L m fuel (load64 m p)
      | Except.error e => Except.error e

/-- The function `check_free_list()`: panics on an empty list, then asserts
`p > end` for every node. -/
def check_free_list (L : Layout) (fuel : Nat) (s : Kmem) : Exec Unit :=
  if s.free_list = 0 then
    Except.error (Fault.panic "'kmem.free_list' is a null pointer!")
  else check_free_list_loop L s.mem fuel s.free_list

/-! ## kern/vm.c -/

/-- Modelled from the spec: `PGSHIFT` of mmu.h, which is not part of the
sources; log2 of the page size. -/
def PGSHIFT : Nat := 12

/-- Modelled from the spec: the presence bit `PTE_P` of mmu.h, which is not
part of the sources; bit 0 of an entry in the hardware format. -/
def PTE_P : Nat := 1

/-- Modelled from the spec: the architecture flag `PTE_TABLE` of mmu.h, which
is not part of the sources; bit 1 of an entry in the hardware format. -/
def PTE_TABLE : Nat := 2

/-- Modelled from the spec: the architecture flag `PTE_AF` of mmu.h, which is
not part of the sources; bit 10 of an entry in the hardware format. -/
def PTE_AF : Nat := 1024

/-- Modelled from the spec: the macro `PTX(level, va)` of mmu.h, which is not
part of the sources; the 9 index bits of `va` for `level`, above a 12-bit page
offset (512 entries per table page). -/
def PTX (level va : Nat) : Nat := (va >>> (39 - 9 * level)) &&& 0x1FF

/-- The address mask `pgdir_walk` applies to a present entry. -/
def PTE_ADDR_MASK : Nat := 0x0000fffffffff000

/-- The loop of `pgdir_walk`, with `n` levels still to visit, at `level`, in
the table page `curr`.  `pte` is the local variable of that name, which the
function returns and never assigns: its parameter here is the indeterminate
value it holds. -/
def pgdir_walk_from (va : Nat) (alloc : Int) (pte : Nat) : Nat → Nat → Nat → Kmem → Nat × Kmem
  | 0, _, _, s => (pte, s)
  | n + 1, level, curr, s =>
    let pte_pointer := curr + 8 * PTX level va
    if load64 s.mem pte_pointer &&& PTE_P ≠ 0 then
      pgdir_walk_from va alloc pte n (level + 1) (load64 s.mem pte_pointer &&& PTE_ADDR_MASK) s
    else if alloc = 0 then (0, s)
    else
      let r := kalloc s
      if r.1 = 0 then (0, r.2)
      else
        let m1 := memset r.2.mem r.1 0 PGSIZE
        let m2 := store64 m1 pte_pointer (r.1 ||| PTE_P)
        pgdir_walk_from va alloc pte n (level + 1) r.1 ⟨m2, r.2.free_list⟩

/-- The function `pgdir_walk(pgdir, va, alloc)`: four levels from the root; the result is
the returned pointer (0 is `NULL`) and the new state. -/
def pgdir_walk (pte : Nat) (s : Kmem) (pgdir va : Nat) (alloc : Int) : Nat × Kmem :=
  pgdir_walk_from va alloc pte 4 0 pgdir s

/-- The `for (;;)` loop of `map_region`; `i` counts the iterations and
`junk i` is the indeterminate value of `pgdir_walk`'s local `pte` in the
`i`-th call.  `start` is a `uint64_t *`, so `start += PGSIZE` advances it by
`8 * PGSIZE` bytes. -/
def map_region_loop (junk : Nat → Nat) (pgdir vend perm : Nat) :
    Nat → Nat → Nat → Nat → Kmem → Exec (Int × Kmem)
  | 0, _, _, _, _ => Except.error Fault.outOfFuel
  | fuel + 1, i, start, pa, s =>
    let r := pgdir_walk (junk i) s pgdir start 1
    if r.1 = 0 then Except.ok (-1, r.2)
    else if load64 r.2.mem r.1 &&& PTE_P ≠ 0 then
      Except.error (Fault.panic "map_region: page returned by pgdir_walk invalid")
    else
      let m1 := store64 r.2.mem r.1 ((pa <<< PGSHIFT) % WORD)
      let m2 := store64 m1 r.1 (load64 m1 r.1 ||| ((perm ||| PTE_P ||| PTE_TABLE ||| PTE_AF) % WORD))
      if start = vend then Except.ok (0, ⟨m2, r.2.free_list⟩)
      else
        map_region_loop junk pgdir vend perm fuel (i + 1) ((start + 8 * PGSIZE) % WORD)
          ((pa + PGSIZE) % WORD) ⟨m2, r.2.free_list⟩

/-- The function `map_region(pgdir, va, size, pa, perm)`: the return value (0 or -1) and
the new state, or a fault. -/
def map_region (junk : Nat → Nat) (fuel : Nat) (s : Kmem) (pgdir va size pa perm : Nat) :
    Exec (Int × Kmem) :=
  map_region_loop junk pgdir (ROUNDDOWN ((va + size + (WORD - 1)) % WORD) PGSIZE) perm
    fuel 0 (ROUNDDOWN va PGSIZE) pa s

/-- The loop of `vm_free` over the entries `i, i + 1, ...` of the table page
`pgdir`, `n` of them.  The local `pte` is `NULL` throughout, so `*pte` is the
word at address 0.  The source has no `if` line before the `else if`;
`cond` stands for the condition of that line, evaluated after
`*pte = pgdir[i]`, and `child` is the recursive call. -/
def vm_free_loop (cond : Mem → Nat → Nat → Nat → Bool) (child : Kmem → Nat → Nat → Exec Kmem)
    (pgdir level : Nat) : Nat → Nat → Kmem → Exec Kmem
  | 0, _, s => Except.ok s
  | n + 1, i, s =>
    let m1 := store64 s.mem 0 (load64 s.mem (pgdir + 8 * i))
    if cond m1 pgdir i level then
      match child ⟨m1, s.free_list⟩ (load64 m1 0 >>> PGSHIFT) (level + 1) with
      | Except.ok s2 =>
        vm_free_loop cond child pgdir level n (i + 1)
          ⟨store64 s2.mem (pgdir + 8 * i) 0, s2.free_list⟩
      | Except.error e => Except.error e
    else if load64 m1 0 &&& PTE_P ≠ 0 then Except.error (Fault.panic "vm_free: leaf")
    else vm_free_loop cond child pgdir level n (i + 1) ⟨m1, s.free_list⟩

/-- The function `vm_free(pgdir, level)`: the loop over the 512 entries, then
`kfree(pgdir)`; `fuel` bounds the depth of the recursion. -/
def vm_free (L : Layout) (cond : Mem → Nat → Nat → Nat → Bool) :
    Nat → Kmem → Nat → Nat → Exec Kmem
  | 0, _, _, _ => Except.error Fault.outOfFuel
  | fuel + 1, s, pgdir, level =>
    match vm_free_loop cond (vm_free L cond fuel) pgdir level 512 0 s with
    | Except.ok s1 => kfree L s1 pgdir
    | Except.error e => Except.error e

/-- Some entry on the path of `va` is absent (its `PTE_P` bit is clear): the
path runs through `n` levels from the table page `curr` at `level`, each next
table being the address field of the entry. -/
def entryAbsentOnPath (m : Mem) (va : Nat) : Nat → Nat → Nat → Prop
  | 0, _, _ => False
  | n + 1, level, curr =>
    load64 m (curr + 8 * PTX level va) &&& PTE_P = 0 ∨
    entryAbsentOnPath m va n (level + 1) (load64 m (curr + 8 * PTX level va) &&& PTE_ADDR_MASK)

instance entryAbsentOnPath.decide (m : Mem) (va : Nat) :
    (n level curr : Nat) → Decidable (entryAbsentOnPath m va n level curr)
  | 0, _, _ => by unfold entryAbsentOnPath; infer_instance
  | n + 1, level, curr => by
    unfold entryAbsentOnPath
    exact @instDecidableOr _ _ _ (entryAbsentOnPath.decide m va n (level + 1) _)

/-- No entry on the path of `va` lies in the address range `[lo, hi)`: the
path runs through at most `n` levels from the table page `curr` at `level` and
stops at the first absent entry. -/
def pathOutside (m : Mem) (va lo hi : Nat) : Nat → Nat → Nat → Prop
  | 0, _, _ => True
  | n + 1, level, curr =>
    (curr + 8 * PTX level va + 8 ≤ lo ∨ hi ≤ curr + 8 * PTX level va) ∧
    (load64 m (curr + 8 * PTX level va) &&& PTE_P ≠ 0 →
      pathOutside m va lo hi n (level + 1)
        (load64 m (curr + 8 * PTX level va) &&& PTE_ADDR_MASK))

instance pathOutside.decide (m : Mem) (va lo hi : Nat) :
    (n level curr : Nat) → Decidable (pathOutside m va lo hi n level curr)
  | 0, _, _ => by unfold pathOutside; infer_instance
  | n + 1, level, curr => by
    unfold pathOutside
    have := pathOutside.decide m va lo hi n (level + 1)
      (load64 m (curr + 8 * PTX level va) &&& PTE_ADDR_MASK)
    infer_instance

/-! ## The free list as a sequence of frames -/

/-- The predicate `Chain m p l`: following `next` pointers in memory `m` from `p` visits
exactly the nodes `l` and then reaches the null pointer. -/
def Chain (m : Mem) : Nat → List Nat → Prop
  | p, [] => p = 0
  | p, x :: xs => p ≠ 0 ∧ p = x ∧ Chain m (load64 m x) xs

instance Chain.decide (m : Mem) : (p : Nat) → (l : List Nat) → Decidable (Chain m p l)
  | p, [] => by unfold Chain; infer_instance
  | p, x :: xs => by
    unfold Chain
    exact @instDecidableAnd _ _ _ (@instDecidableAnd _ _ _ (Chain.decide m (load64 m x) xs))

/-- A frame address `free` accepts: page-aligned and inside
`[kernel_end, P2V(PHYSTOP))`. -/
def Valid (L : Layout) (x : Nat) : Prop :=
  x % PGSIZE = 0 ∧ L.kernel_end ≤ x ∧ x < P2V L L.PHYSTOP

instance (L : Layout) (x : Nat) : Decidable (Valid L x) := by
  unfold Valid; infer_instance

/-- The free-list invariant of the data model: the list is the chain `l` and
every node is a valid frame. -/
def FreeListInv (L : Layout) (s : Kmem) (l : List Nat) : Prop :=
  Chain s.mem s.free_list l ∧ ∀ x ∈ l, Valid L x

instance (L : Layout) (s : Kmem) (l : List Nat) : Decidable (FreeListInv L s l) := by
  unfold FreeListInv; infer_instance

/-- The page addresses `p, p + PGSIZE, ...`, `n` of them, in ascending order. -/
def pagesFrom (p : Nat) : Nat → List Nat
  | 0 => []
  | n + 1 => p :: pagesFrom (p + PGSIZE) n

/-- The frames `free_range(vstart, vend)` is specified to free: every
`ROUNDUP(vstart) + k * PGSIZE` whose page ends at or below `vend`, ascending. -/
def rangeFrames (vstart vend : Nat) : List Nat :=
  pagesFrom (ROUNDUP vstart PGSIZE) ((vend - ROUNDUP vstart PGSIZE) / PGSIZE)

/-- The addresses the loop of `free_range` passes to `kfree`, in order, as
long as every call returns: the same test and increment as the loop. -/
def loopPages (vend : Nat) : Nat → Nat → List Nat
  | 0, _ => []
  | fuel + 1, p =>
    if (p + PGSIZE) % WORD ≤ vend then p :: loopPages vend fuel ((p + PGSIZE) % WORD)
    else []

/-- The addresses `free_range(vstart, vend)` passes to `kfree`. -/
def freedPages (vstart vend : Nat) : List Nat :=
  loopPages vend (WORD / PGSIZE + 1) (ROUNDUP vstart PGSIZE)

/-- One step along the free list: the `next` field of node `p`; the null
pointer has no successor. -/
def next (m : Mem) (p : Nat) : Nat := if p = 0 then 0 else load64 m p

/-- The pointer reached from `p` after `n` steps along the `next` fields. -/
def nthNode (m : Mem) (p : Nat) : Nat → Nat
  | 0 => p
  | n + 1 => next m (nthNode m p n)

/-- Every pointer met along the free list is null or a valid frame. -/
def NodesValid (L : Layout) (s : Kmem) : Prop :=
  ∀ n, nthNode s.mem s.free_list n = 0 ∨ Valid L (nthNode s.mem s.free_list n)

/-- States reachable from the empty allocator by allocator calls that return
(do not reach the fatal path); pointer arguments are 64-bit values. -/
inductive Reachable (L : Layout) : Kmem → Prop
  | boot (m : Mem) : Reachable L ⟨m, 0⟩
  | kfree {s s1 : Kmem} (v : Nat) : Reachable L s → v < WORD →
      kfree L s v = Except.ok s1 → Reachable L s1
  | free_range {s s1 : Kmem} (a b : Nat) : Reachable L s → a < WORD → b < WORD →
      free_range L s a b = Except.ok s1 → Reachable L s1
  | alloc_init {s s1 : Kmem} : Reachable L s →
      alloc_init L s = Except.ok s1 → Reachable L s1
  | kalloc {s : Kmem} : Reachable L s → Reachable L (kalloc s).2

/-- States reachable from the empty allocator by allocator calls that return
and that free only frames which are not on the free list at that moment. -/
inductive ReachableFresh (L : Layout) : Kmem → Prop
  | boot (m : Mem) : ReachableFresh L ⟨m, 0⟩
  | kfree {s s1 : Kmem} (v : Nat) : ReachableFresh L s → v < WORD →
      (∀ n, nthNode s.mem s.free_list n ≠ v) →
      kfree L s v = Except.ok s1 → ReachableFresh L s1
  | free_range {s s1 : Kmem} (a b : Nat) : ReachableFresh L s → a < WORD → b < WORD →
      (∀ x ∈ freedPages a b, ∀ n, nthNode s.mem s.free_list n ≠ x) →
      free_range L s a b = Except.ok s1 → ReachableFresh L s1
  | alloc_init {s s1 : Kmem} : ReachableFresh L s →
      (∀ x ∈ freedPages L.kernel_end (P2V L L.PHYSTOP),
        ∀ n, nthNode s.mem s.free_list n ≠ x) →
      alloc_init L s = Except.ok s1 → ReachableFresh L s1
  | kalloc {s : Kmem} : ReachableFresh L s → ReachableFresh L (kalloc s).2

/-! ## Concrete arena used in examples -/

/-- A layout with a 16-frame (64 KB) arena right above the kernel image. -/
def L16 : Layout := ⟨0xFFFF000000000000, 0x90000, 0xFFFF000000080000⟩

/-- Memory with every byte zero. -/
def mem0 : Mem := fun _ => 0

/-- The allocator before any frame was registered. -/
def boot : Kmem := ⟨mem0, 0⟩

/-- First frame of the arena of `L16` (it starts at `end`). -/
def frameA : Nat := 0xFFFF000000080000

/-- Second frame of the arena of `L16`. -/
def frameB : Nat := 0xFFFF000000081000

/-- The state `kfree(frameA)` produces from `boot`: free list `[frameA]`. -/
def stateA : Kmem := ⟨store64 (memset mem0 frameA 1 PGSIZE) frameA 0, frameA⟩

/-- The state `kfree(frameB)` produces from `stateA`: free list
`[frameB, frameA]`. -/
def stateBA : Kmem := ⟨store64 (memset stateA.mem frameB 1 PGSIZE) frameB frameA, frameB⟩

/-- The free frames of `vmState`: the fifteen frames above `frameA`, highest
address first. -/
def arena15 : List Nat :=
  [0xFFFF00000008F000, 0xFFFF00000008E000, 0xFFFF00000008D000, 0xFFFF00000008C000,
   0xFFFF00000008B000, 0xFFFF00000008A000, 0xFFFF000000089000, 0xFFFF000000088000,
   0xFFFF000000087000, 0xFFFF000000086000, 0xFFFF000000085000, 0xFFFF000000084000,
   0xFFFF000000083000, 0xFFFF000000082000, 0xFFFF000000081000]

/-- A state for the page-table code: `frameA` was freed and allocated again
(a zero-filled root page), then `free_range` registered the other fifteen
frames of the arena. -/
def vmState : Kmem :=
  match free_range L16 (kalloc stateA).2 frameB (P2V L16 L16.PHYSTOP) with
  | Except.ok s => s
  | Except.error _ => boot

/-- The state in which `pgdir_walk(frameA, 0x1000, 1)` returns from `vmState`. -/
def vmFail : Kmem := (pgdir_walk 0 vmState frameA 0x1000 1).2

/-- The sixteen frames of the arena of `L16`, highest address first: the
order in which `alloc_init` leaves them on the free list. -/
def arena16 : List Nat :=
  [0xFFFF00000008F000, 0xFFFF00000008E000, 0xFFFF00000008D000, 0xFFFF00000008C000,
   0xFFFF00000008B000, 0xFFFF00000008A000, 0xFFFF000000089000, 0xFFFF000000088000,
   0xFFFF000000087000, 0xFFFF000000086000, 0xFFFF000000085000, 0xFFFF000000084000,
   0xFFFF000000083000, 0xFFFF000000082000, 0xFFFF000000081000, 0xFFFF000000080000]

/-- The state a second `kfree(frameA)` produces from `stateA`. -/
def stateAA : Kmem := ⟨store64 (memset stateA.mem frameA 1 PGSIZE) frameA frameA, frameA⟩

/-- The state `alloc_init()` produces from `boot` on the 16-frame arena. -/
def state16 : Kmem :=
  match alloc_init L16 boot with
  | Except.ok s => s
  | Except.error _ => boot

/-- The state `kfree(0xFFFF00000008E000)` produces from `vmFail`. -/
def vmRefill1 : Kmem :=
  ⟨store64 (memset vmFail.mem 0xFFFF00000008E000 1 PGSIZE) 0xFFFF00000008E000 vmFail.free_list,
    0xFFFF00000008E000⟩

/-- The state in which `pgdir_walk(frameA, 0x1000, 1)` returns from `vmRefill1`. -/
def vmFail2 : Kmem := (pgdir_walk 0 vmRefill1 frameA 0x1000 1).2

/-- The state `kfree(0xFFFF00000008D000)` produces from `vmFail2`. -/
def vmRefill2 : Kmem :=
  ⟨store64 (memset vmFail2.mem 0xFFFF00000008D000 1 PGSIZE) 0xFFFF00000008D000
    vmFail2.free_list, 0xFFFF00000008D000⟩

/-- The state in which `pgdir_walk(frameA, 0x1000, 1)` returns from `vmRefill2`. -/
def vmFail3 : Kmem := (pgdir_walk 0 vmRefill2 frameA 0x1000 1).2

/-- The state `kfree(0xFFFF00000008C000)` produces from `vmFail3`: the entries
of levels 0, 1 and 2 on the path of `0x1000` are present, the level-3 entry is
absent, and one frame is free. -/
def vmReady : Kmem :=
  ⟨store64 (memset vmFail3.mem 0xFFFF00000008C000 1 PGSIZE) 0xFFFF00000008C000
    vmFail3.free_list, 0xFFFF00000008C000⟩

/-- The state in which `pgdir_walk(frameA, 0x1000, 1)` returns from `vmReady`:
all four entries on the path of `0x1000` are present. -/
def vmFull : Kmem := (pgdir_walk 0 vmReady frameA 0x1000 1).2

/-- A zero-filled root page `frameA` and exactly one free frame, `frameB`:
the state `kfree(frameB)` produces after `frameA` was freed and allocated. -/
def vmOne : Kmem :=
  ⟨store64 (memset (kalloc stateA).2.mem frameB 1 PGSIZE) frameB (kalloc stateA).2.free_list,
    frameB⟩

/-- A hierarchy whose level-1 table page `0x101000` is also the head of the
free list: root `0x100000`, tables `0x101000`, `0x102000`, `0x103000` on the
path of `0x1000`, leaf entry absent. -/
def vmAlias : Kmem :=
  ⟨store64 (store64 (store64 mem0 0x100000 0x101001) 0x101000 0x102001) 0x102000 0x103001,
    0x101000⟩

/-- An address no call in the examples writes to; it stands for the value
the uninitialised local `pte` of `pgdir_walk` happens to hold. -/
def strayPtr : Nat := 0x200000

/-! ## Memory lemmas -/

theorem memset_inside (m : Mem) (dst c n a : Nat) (h1 : dst ≤ a) (h2 : a < dst + n) :
    memset m dst c n a = c % 256 := by
  simp [memset, h1, h2]

theorem memset_outside (m : Mem) (dst c n a : Nat) (h : a < dst ∨ dst + n ≤ a) :
    memset m dst c n a = m a := by
  have : ¬ (dst ≤ a ∧ a < dst + n) := by omega
  simp [memset, this]

theorem store64_outside (m : Mem) (a v x : Nat) (h : x < a ∨ a + 8 ≤ x) :
    store64 m a v x = m x := by
  have : ¬ (a ≤ x ∧ x < a + 8) := by omega
  simp [store64, this]

theorem load64_congr (m1 m2 : Mem) (a : Nat)
    (h : ∀ i, i < 8 → m1 (a + i) = m2 (a + i)) : load64 m1 a = load64 m2 a := by
  have h0 := h 0 (by omega)
  simp only [Nat.add_zero] at h0
  simp only [load64, h0, h 1 (by omega), h 2 (by omega), h 3 (by omega), h 4 (by omega),
    h 5 (by omega), h 6 (by omega), h 7 (by omega)]

theorem WORD_pos : 0 < WORD := by decide

theorem mod_word_lt (x : Nat) : x % WORD < WORD := Nat.mod_lt _ WORD_pos

theorem load64_lt (m : Mem) (a : Nat) : load64 m a < WORD := by
  unfold load64 WORD
  omega

theorem load64_store64 (m : Mem) (a v : Nat) (hv : v < WORD) :
    load64 (store64 m a v) a = v := by
  unfold WORD at hv
  simp [load64, store64]
  omega

theorem load64_memset_zero (m : Mem) (a n : Nat) (hn : 8 ≤ n) :
    load64 (memset m a 0 n) a = 0 := by
  have h : ∀ i, i < 8 → memset m a 0 n (a + i) = 0 := by
    intro i hi
    rw [memset_inside m a 0 n (a + i) (by omega) (by omega)]
  have h0 := h 0 (by omega)
  simp only [Nat.add_zero] at h0
  simp [load64, h0, h 1 (by omega), h 2 (by omega), h 3 (by omega), h 4 (by omega),
    h 5 (by omega), h 6 (by omega), h 7 (by omega)]

theorem kalloc_free_list_zero (s : Kmem) : (kalloc s).2.free_list = 0 := by
  unfold kalloc
  split
  · assumption
  · exact load64_memset_zero _ _ _ (by decide)

theorem accept_iff_valid (L : Layout) (hL : L.WF) (v : Nat) (hv : v < WORD) :
    ¬ (v % PGSIZE ≠ 0 ∨ v < L.kernel_end ∨ V2P L v ≥ L.PHYSTOP) ↔ Valid L v := by
  obtain ⟨_, h2, h3⟩ := hL
  unfold Valid V2P P2V
  unfold WORD at *
  omega

theorem Valid.lt_word (L : Layout) (v : Nat) (h : Valid L v) : v < WORD := by
  have := h.2.2
  unfold P2V at this
  have h2 : (L.PHYSTOP + L.KERNBASE) % WORD < WORD := Nat.mod_lt _ (by decide)
  omega

theorem kfree_ok_of_valid (L : Layout) (hL : L.WF) (s : Kmem) (v : Nat) (hv : Valid L v) :
    kfree L s v = Except.ok ⟨store64 (memset s.mem v 1 PGSIZE) v s.free_list, v⟩ := by
  have h := (accept_iff_valid L hL v (Valid.lt_word L v hv)).mpr hv
  simp only [kfree, if_neg h]

theorem valid_of_kfree_ok (L : Layout) (hL : L.WF) (s s1 : Kmem) (v : Nat) (hv : v < WORD)
    (h : kfree L s v = Except.ok s1) :
    Valid L v ∧ s1 = ⟨store64 (memset s.mem v 1 PGSIZE) v s.free_list, v⟩ := by
  unfold kfree at h
  split at h
  · cases h
  · rename_i hacc
    refine ⟨(accept_iff_valid L hL v hv).mp hacc, ?_⟩
    injection h with h
    exact h.symm

/-! ## Claims on `kfree` and `kalloc` -/

/-- C1 (code defect): on the free list `[frameB, frameA]`, built by two `kfree`
calls, `kalloc` returns the head `frameB` but leaves the free list empty
instead of `[frameA]`: the page is zero-filled before `v->next` is read. -/
theorem kalloc_drops_tail :
    kfree L16 boot frameA = Except.ok stateA ∧
    kfree L16 stateA frameB = Except.ok stateBA ∧
    Chain stateBA.mem stateBA.free_list [frameB, frameA] ∧
    (kalloc stateBA).1 = frameB ∧
    (kalloc stateBA).2.free_list = 0 ∧
    ¬ Chain (kalloc stateBA).2.mem (kalloc stateBA).2.free_list [frameA] :=
  ⟨rfl, rfl, by decide, by decide, by decide, by decide⟩

/-- C2 (code defect): after `alloc_init` over the 16-frame arena the free list
holds the sixteen frames, the first `kalloc` returns a frame and the second
`kalloc` already returns the no-memory value 0. -/
theorem kalloc_second_call_fails :
    ∃ s, alloc_init L16 boot = Except.ok s ∧
      Chain s.mem s.free_list arena16 ∧ arena16.length = 16 ∧
      (kalloc s).1 = 0xFFFF00000008F000 ∧
      (kalloc (kalloc s).2).1 = 0 :=
  ⟨_, rfl, by decide, by decide, by decide, by decide⟩

/-- C3: `kfree(v)` panics exactly when `v` is not a multiple of `PGSIZE`, or
is below the end of the kernel image, or is at or above the top of physical
memory; every other address is accepted and the call returns. -/
theorem kfree_panic_iff (L : Layout) (hL : L.WF) (s : Kmem) (v : Nat) (hv : v < WORD) :
    (kfree L s v = Except.error (Fault.panic "kfree") ↔
      (v % PGSIZE ≠ 0 ∨ v < L.kernel_end ∨ P2V L L.PHYSTOP ≤ v)) ∧
    ((v % PGSIZE = 0 ∧ L.kernel_end ≤ v ∧ v < P2V L L.PHYSTOP) →
      ∃ s1, kfree L s v = Except.ok s1) := by
  have key := accept_iff_valid L hL v hv
  unfold Valid at key
  constructor
  · constructor
    · intro h
      by_contra hc
      have hval : v % PGSIZE = 0 ∧ L.kernel_end ≤ v ∧ v < P2V L L.PHYSTOP := by omega
      have hacc := key.mpr hval
      simp [kfree, if_neg hacc] at h
    · intro h
      have hrej : v % PGSIZE ≠ 0 ∨ v < L.kernel_end ∨ V2P L v ≥ L.PHYSTOP := by
        by_contra hc
        have := key.mp hc
        omega
      simp only [kfree, if_pos hrej]
  · intro hval
    exact ⟨_, kfree_ok_of_valid L hL s v hval⟩

/-- Witness of C3 on the 16-frame arena, at its first frame. -/
theorem kfree_panic_iff_witness :
    L16.WF ∧ frameA < WORD ∧
    ((kfree L16 boot frameA = Except.error (Fault.panic "kfree") ↔
      (frameA % PGSIZE ≠ 0 ∨ frameA < L16.kernel_end ∨ P2V L16 L16.PHYSTOP ≤ frameA)) ∧
    ((frameA % PGSIZE = 0 ∧ L16.kernel_end ≤ frameA ∧ frameA < P2V L16 L16.PHYSTOP) →
      ∃ s1, kfree L16 boot frameA = Except.ok s1)) :=
  ⟨by decide, by decide, kfree_panic_iff L16 (by decide) boot frameA (by decide)⟩

/-- C5: when the free list is non-empty, `kalloc` returns its head and every
one of the `PGSIZE` bytes of the returned frame is zero in the state `kalloc`
returns with, the bytes of the link word included. -/
theorem kalloc_zero_filled (s : Kmem) (h : s.free_list ≠ 0) (i : Nat) (hi : i < PGSIZE) :
    (kalloc s).1 = s.free_list ∧ (kalloc s).2.mem ((kalloc s).1 + i) = 0 := by
  simp only [kalloc, if_neg h]
  exact ⟨trivial, memset_inside _ _ _ _ _ (by omega) (by omega)⟩

/-- Witness of C5: byte 3 of the frame taken from the list `[frameA]`. -/
theorem kalloc_zero_filled_witness :
    stateA.free_list ≠ 0 ∧ 3 < PGSIZE ∧
    ((kalloc stateA).1 = stateA.free_list ∧ (kalloc stateA).2.mem ((kalloc stateA).1 + 3) = 0) :=
  ⟨by decide, by decide, kalloc_zero_filled stateA (by decide) 3 (by decide)⟩

/-- C6 (LIFO): for every allocator state and every valid frame `P`, `kfree(P)`
returns and the `kalloc` that follows it returns exactly `P`, as a frame. -/
theorem kfree_kalloc_lifo (L : Layout) (hL : L.WF) (s : Kmem) (P : Nat) (hP : Valid L P) :
    ∃ s1, kfree L s P = Except.ok s1 ∧ (kalloc s1).1 = P ∧ P ≠ 0 := by
  refine ⟨_, kfree_ok_of_valid L hL s P hP, ?_, ?_⟩
  · have h0 : P ≠ 0 := by
      have := hL.1
      have := hP.2.1
      omega
    simp [kalloc, h0]
  · have := hL.1
    have := hP.2.1
    omega

/-- Witness of C6: freeing `frameA` into the empty allocator. -/
theorem kfree_kalloc_lifo_witness :
    L16.WF ∧ Valid L16 frameA ∧
    ∃ s1, kfree L16 boot frameA = Except.ok s1 ∧ (kalloc s1).1 = frameA ∧ frameA ≠ 0 :=
  ⟨by decide, by decide, kfree_kalloc_lifo L16 (by decide) boot frameA (by decide)⟩

/-- C7: on an empty free list `kalloc` returns 0 and the state it returns
with (free list and memory) is the state it was called in; `kalloc` has no
fatal path. -/
theorem kalloc_empty (s : Kmem) (h : s.free_list = 0) : kalloc s = (0, s) := by
  simp [kalloc, h]

/-- Witness of C7: the allocator before any frame was registered. -/
theorem kalloc_empty_witness : boot.free_list = 0 ∧ kalloc boot = (0, boot) :=
  ⟨rfl, kalloc_empty boot rfl⟩

/-! ## Pushing frames on the free list -/

theorem kfree_mem_outside (m : Mem) (v h a : Nat) (ha : a < v ∨ v + PGSIZE ≤ a) :
    store64 (memset m v 1 PGSIZE) v h a = m a := by
  unfold PGSIZE at ha
  rw [store64_outside _ _ _ _ (by omega), memset_outside _ _ _ _ _ (by unfold PGSIZE; omega)]

theorem kfree_link_other (m : Mem) (v h x : Nat) (hv : v % PGSIZE = 0) (hx : x % PGSIZE = 0)
    (hne : x ≠ v) : load64 (store64 (memset m v 1 PGSIZE) v h) x = load64 m x := by
  apply load64_congr
  intro i hi
  apply kfree_mem_outside
  unfold PGSIZE at *
  omega

theorem Chain.congr (m1 m2 : Mem) : ∀ (l : List Nat) (p : Nat),
    (∀ x ∈ l, load64 m2 x = load64 m1 x) → Chain m1 p l → Chain m2 p l
  | [], _, _, h => h
  | x :: xs, p, hl, h => by
    unfold Chain at h ⊢
    refine ⟨h.1, h.2.1, ?_⟩
    rw [hl x (List.mem_cons_self x xs)]
    exact Chain.congr m1 m2 xs _ (fun y hy => hl y (List.mem_cons_of_mem x hy)) h.2.2

theorem Chain.head_lt (L : Layout) (m : Mem) (p : Nat) (l : List Nat)
    (h : Chain m p l) (hv : ∀ x ∈ l, Valid L x) : p < WORD := by
  cases l with
  | nil =>
    unfold Chain at h
    subst h
    decide
  | cons x xs =>
    unfold Chain at h
    rw [h.2.1]
    exact Valid.lt_word L x (hv x (List.mem_cons_self x xs))

theorem Valid.ne_zero (L : Layout) (hL : L.WF) (v : Nat) (hv : Valid L v) : v ≠ 0 := by
  have := hL.1
  have := hv.2.1
  omega

theorem kfree_push_inv (L : Layout) (hL : L.WF) (s : Kmem) (l : List Nat) (v : Nat)
    (hinv : FreeListInv L s l) (hv : Valid L v) (hfresh : v ∉ l) :
    FreeListInv L ⟨store64 (memset s.mem v 1 PGSIZE) v s.free_list, v⟩ (v :: l) := by
  obtain ⟨hc, hval⟩ := hinv
  have hlt := Chain.head_lt L _ _ _ hc hval
  refine ⟨?_, ?_⟩
  · show Chain _ v (v :: l)
    unfold Chain
    refine ⟨Valid.ne_zero L hL v hv, rfl, ?_⟩
    rw [load64_store64 _ _ _ hlt]
    refine Chain.congr s.mem _ l _ ?_ hc
    intro x hx
    refine kfree_link_other _ _ _ _ hv.1 (hval x hx).1 ?_
    intro hxv
    exact hfresh (hxv ▸ hx)
  · intro x hx
    rcases List.mem_cons.mp hx with h | h
    · exact h ▸ hv
    · exact hval x h

/-- C4 (counterexample): `frameA` is a valid frame and the free list is
`[frameA]`; a second `kfree(frameA)` is accepted and makes the node its own
successor, so the free list is not `frameA` followed by `[frameA]`. -/
theorem kfree_twice_not_push :
    kfree L16 boot frameA = Except.ok stateA ∧
    FreeListInv L16 stateA [frameA] ∧ Valid L16 frameA ∧
    ∃ s1, kfree L16 stateA frameA = Except.ok s1 ∧
      load64 s1.mem s1.free_list = s1.free_list ∧
      ¬ Chain s1.mem s1.free_list [frameA, frameA] :=
  ⟨rfl, by decide, by decide, _, rfl, by decide, by decide⟩

/-- C4 (amended): for every allocator state whose free list `l` satisfies the
free-list invariant and every valid frame `v` that is not on `l`, `kfree(v)`
returns; afterwards the free list is `v` followed by `l`, the link word at the
start of `v` holds the previous head, every other byte of the frame is the
sentinel 1, and every byte outside the frame is unchanged. -/
theorem kfree_push (L : Layout) (hL : L.WF) (s : Kmem) (l : List Nat) (v : Nat)
    (hinv : FreeListInv L s l) (hv : Valid L v) (hfresh : v ∉ l) :
    ∃ s1, kfree L s v = Except.ok s1 ∧ s1.free_list = v ∧
      Chain s1.mem s1.free_list (v :: l) ∧
      load64 s1.mem v = s.free_list ∧
      (∀ a, v + 8 ≤ a → a < v + PGSIZE → s1.mem a = 1) ∧
      (∀ a, a < v ∨ v + PGSIZE ≤ a → s1.mem a = s.mem a) := by
  refine ⟨_, kfree_ok_of_valid L hL s v hv, rfl, (kfree_push_inv L hL s l v hinv hv hfresh).1,
    ?_, ?_, ?_⟩
  · exact load64_store64 _ _ _ (Chain.head_lt L _ _ _ hinv.1 hinv.2)
  · intro a h1 h2
    show store64 (memset s.mem v 1 PGSIZE) v s.free_list a = 1
    rw [store64_outside _ _ _ _ (by omega), memset_inside _ _ _ _ _ (by omega) h2]
  · intro a ha
    exact kfree_mem_outside _ _ _ _ ha

/-- Witness of C4 (amended): `kfree(frameB)` on the free list `[frameA]`. -/
theorem kfree_push_witness :
    L16.WF ∧ FreeListInv L16 stateA [frameA] ∧ Valid L16 frameB ∧ frameB ∉ [frameA] ∧
    ∃ s1, kfree L16 stateA frameB = Except.ok s1 ∧ s1.free_list = frameB ∧
      Chain s1.mem s1.free_list (frameB :: [frameA]) ∧
      load64 s1.mem frameB = stateA.free_list ∧
      (∀ a, frameB + 8 ≤ a → a < frameB + PGSIZE → s1.mem a = 1) ∧
      (∀ a, a < frameB ∨ frameB + PGSIZE ≤ a → s1.mem a = stateA.mem a) :=
  ⟨by decide, by decide, by decide, by decide,
    kfree_push L16 (by decide) stateA [frameA] frameB (by decide) (by decide) (by decide)⟩

/-! ## `free_range` and `alloc_init` -/

theorem mem_pagesFrom : ∀ (n p x : Nat),
    x ∈ pagesFrom p n ↔ ∃ k, k < n ∧ x = p + k * PGSIZE
  | 0, p, x => by simp [pagesFrom]
  | n + 1, p, x => by
    simp only [pagesFrom, List.mem_cons, mem_pagesFrom n (p + PGSIZE) x]
    constructor
    · rintro (h | ⟨k, hk, h⟩)
      · exact ⟨0, by omega, by omega⟩
      · exact ⟨k + 1, by omega, by rw [h]; ring⟩
    · rintro ⟨k, hk, h⟩
      cases k with
      | zero => left; omega
      | succ k => right; exact ⟨k, by omega, by rw [h]; ring⟩

theorem mem_rangeFrames (vstart vend x : Nat) :
    x ∈ rangeFrames vstart vend ↔
      ∃ k, x = ROUNDUP vstart PGSIZE + k * PGSIZE ∧
        ROUNDUP vstart PGSIZE + (k + 1) * PGSIZE ≤ vend := by
  unfold rangeFrames
  rw [mem_pagesFrom]
  have hdiv : ∀ k, k < (vend - ROUNDUP vstart PGSIZE) / PGSIZE ↔
      ROUNDUP vstart PGSIZE + (k + 1) * PGSIZE ≤ vend := by
    intro k
    have h := @Nat.le_div_iff_mul_le PGSIZE (k + 1) (vend - ROUNDUP vstart PGSIZE) (by decide)
    unfold PGSIZE at *
    constructor
    · intro hk
      have := h.mp hk
      omega
    · intro hk
      have := h.mpr (by omega)
      omega
  constructor
  · rintro ⟨k, hk, h⟩
    exact ⟨k, h, (hdiv k).mp hk⟩
  · rintro ⟨k, h, hk⟩
    exact ⟨k, (hdiv k).mpr hk, h⟩

theorem pagesFrom_ascending : ∀ (n p : Nat), (pagesFrom p n).Pairwise (fun a b => a < b)
  | 0, _ => List.Pairwise.nil
  | n + 1, p => by
    unfold pagesFrom
    refine List.Pairwise.cons ?_ (pagesFrom_ascending n (p + PGSIZE))
    intro x hx
    obtain ⟨k, _, h⟩ := (mem_pagesFrom n (p + PGSIZE) x).mp hx
    unfold PGSIZE at h
    omega

theorem free_range_loop_eq_fold (L : Layout) (vend : Nat) (hvend : vend + PGSIZE < WORD) :
    ∀ (n p : Nat) (s : Kmem) (fuel : Nat),
    p + PGSIZE < WORD → (vend - p) / PGSIZE = n → n < fuel →
    free_range_loop L vend fuel p s = (pagesFrom p n).foldlM (kfree L) s
  | 0, p, s, fuel, hp, hn, hf => by
    obtain ⟨f, rfl⟩ : ∃ f, fuel = f + 1 := ⟨fuel - 1, by omega⟩
    have hP : PGSIZE = 4096 := rfl
    have hmod : (p + PGSIZE) % WORD = p + PGSIZE := Nat.mod_eq_of_lt hp
    have hlt : ¬ ((p + PGSIZE) % WORD ≤ vend) := by
      have := (Nat.div_eq_zero_iff (by decide : 0 < PGSIZE)).mp hn
      omega
    simp only [free_range_loop, if_neg hlt, pagesFrom, List.foldlM_nil]
    rfl
  | n + 1, p, s, fuel, hp, hn, hf => by
    obtain ⟨f, rfl⟩ : ∃ f, fuel = f + 1 := ⟨fuel - 1, by omega⟩
    have hP : PGSIZE = 4096 := rfl
    have hmod : (p + PGSIZE) % WORD = p + PGSIZE := Nat.mod_eq_of_lt hp
    have hle : p + PGSIZE ≤ vend := by
      by_contra hc
      have : (vend - p) / PGSIZE = 0 :=
        (Nat.div_eq_zero_iff (by decide : 0 < PGSIZE)).mpr (by omega)
      omega
    have hn1 : (vend - (p + PGSIZE)) / PGSIZE = n := by
      have : vend - p = (vend - (p + PGSIZE)) + PGSIZE := by omega
      rw [this, Nat.add_div_right _ (by decide : 0 < PGSIZE)] at hn
      omega
    have hle2 : (p + PGSIZE) % WORD ≤ vend := by rw [hmod]; exact hle
    simp only [free_range_loop, if_pos hle2, pagesFrom, List.foldlM_cons]
    cases hk : kfree L s p with
    | error e => rfl
    | ok s1 =>
      simp only []
      rw [hmod, free_range_loop_eq_fold L vend hvend n (p + PGSIZE) s1 f (by omega) hn1
        (by omega)]
      rfl

theorem free_range_eq_fold (L : Layout) (s : Kmem) (vstart vend : Nat)
    (hstart : ROUNDUP vstart PGSIZE + PGSIZE < WORD) (hvend : vend + PGSIZE < WORD) :
    free_range L s vstart vend = (rangeFrames vstart vend).foldlM (kfree L) s := by
  unfold free_range rangeFrames
  refine free_range_loop_eq_fold L vend hvend _ _ s _ hstart rfl ?_
  unfold WORD PGSIZE at *
  omega

theorem kfree_fold_push (L : Layout) (hL : L.WF) : ∀ (ps : List Nat) (s : Kmem) (l : List Nat),
    FreeListInv L s l → (∀ x ∈ ps, Valid L x) → (∀ x ∈ ps, x ∉ l) → ps.Nodup →
    ∃ s1, ps.foldlM (kfree L) s = Except.ok s1 ∧ FreeListInv L s1 (ps.reverse ++ l)
  | [], s, l, hinv, _, _, _ => ⟨s, rfl, by simpa using hinv⟩
  | p :: ps, s, l, hinv, hval, hfresh, hnd => by
    have hp := hval p (List.mem_cons_self p ps)
    have hinv1 := kfree_push_inv L hL s l p hinv hp (hfresh p (List.mem_cons_self p ps))
    have hnd1 := List.nodup_cons.mp hnd
    obtain ⟨s1, h1, h2⟩ := kfree_fold_push L hL ps _ (p :: l) hinv1
      (fun x hx => hval x (List.mem_cons_of_mem p hx))
      (fun x hx hmem => by
        rcases List.mem_cons.mp hmem with h | h
        · exact hnd1.1 (h ▸ hx)
        · exact hfresh x (List.mem_cons_of_mem p hx) h)
      hnd1.2
    refine ⟨s1, ?_, ?_⟩
    · rw [List.foldlM_cons, kfree_ok_of_valid L hL s p hp]
      exact h1
    · simpa using h2

theorem kfree_fold_ok (L : Layout) (hL : L.WF) : ∀ (ps : List Nat) (s : Kmem),
    (∀ x ∈ ps, Valid L x) → ∃ s1, ps.foldlM (kfree L) s = Except.ok s1
  | [], s, _ => ⟨s, rfl⟩
  | p :: ps, s, hval => by
    obtain ⟨s1, h1⟩ := kfree_fold_ok L hL ps
      ⟨store64 (memset s.mem p 1 PGSIZE) p s.free_list, p⟩
      (fun x hx => hval x (List.mem_cons_of_mem p hx))
    refine ⟨s1, ?_⟩
    rw [List.foldlM_cons, kfree_ok_of_valid L hL s p (hval p (List.mem_cons_self p ps))]
    exact h1

theorem rangeFrames_nodup (vstart vend : Nat) : (rangeFrames vstart vend).Nodup := by
  unfold rangeFrames
  exact (pagesFrom_ascending _ _).imp (fun h => Nat.ne_of_lt h)

theorem rangeFrames_valid (L : Layout) (vstart vend : Nat)
    (hrange : ∀ k, ROUNDUP vstart PGSIZE + (k + 1) * PGSIZE ≤ vend →
      L.kernel_end ≤ ROUNDUP vstart PGSIZE + k * PGSIZE ∧
      ROUNDUP vstart PGSIZE + (k + 1) * PGSIZE ≤ P2V L L.PHYSTOP) :
    ∀ x ∈ rangeFrames vstart vend, Valid L x := by
  intro x hx
  obtain ⟨k, hk, hle⟩ := (mem_rangeFrames vstart vend x).mp hx
  obtain ⟨h1, h2⟩ := hrange k hle
  have hal : ROUNDUP vstart PGSIZE % PGSIZE = 0 := by
    unfold ROUNDUP ROUNDDOWN
    exact Nat.sub_mod_eq_zero_of_mod_eq (by simp)
  refine ⟨?_, by omega, by unfold PGSIZE at *; omega⟩
  rw [hk]
  unfold PGSIZE at *
  omega

/-- C8 (counterexample): two inputs.  With `frameA` already on the free list,
`free_range(frameA, frameA + PGSIZE)` stays in range and frees `frameA` once
more; the result is a node that is its own successor, not the list of the
freed frames followed by the previous list `[frameA]`.  And
`free_range(0xFFFFFFFFFFFFF000, 0xFFFFFFFFFFFFFFFF)` has no complete page below
its end, yet the 64-bit sum `p + PGSIZE` wraps to 0, the loop calls `kfree` on
the top page and reaches the fatal path. -/
theorem free_range_refree_not_push :
    (kfree L16 boot frameA = Except.ok stateA ∧
    FreeListInv L16 stateA [frameA] ∧ frameA ≤ frameA + PGSIZE ∧
    rangeFrames frameA (frameA + PGSIZE) = [frameA] ∧ Valid L16 frameA ∧
    ∃ s1, free_range L16 stateA frameA (frameA + PGSIZE) = Except.ok s1 ∧
      load64 s1.mem s1.free_list = s1.free_list ∧
      ¬ Chain s1.mem s1.free_list
        ((rangeFrames frameA (frameA + PGSIZE)).reverse ++ [frameA])) ∧
    ((0xFFFFFFFFFFFFF000 : Nat) ≤ 0xFFFFFFFFFFFFFFFF ∧
    rangeFrames 0xFFFFFFFFFFFFF000 0xFFFFFFFFFFFFFFFF = [] ∧
    free_range L16 boot 0xFFFFFFFFFFFFF000 0xFFFFFFFFFFFFFFFF =
      Except.error (Fault.panic "kfree")) :=
  ⟨⟨rfl, by decide, by decide, by decide, by decide, _, rfl, by decide, by decide⟩,
    by decide, by decide, rfl⟩

/-- C8 (amended): for every `vstart ≤ vend` whose pages from
`ROUNDUP(vstart, PGSIZE)` up to `vend` lie in the arena and whose pointer
arithmetic does not wrap (`ROUNDUP(vstart, PGSIZE) + PGSIZE` and
`vend + PGSIZE` stay below `2 ^ 64`), in every state: `free_range` is `kfree`
applied once to each address `ROUNDUP(vstart, PGSIZE) + k * PGSIZE` with
`ROUNDUP(vstart, PGSIZE) + (k + 1) * PGSIZE ≤ vend`, in ascending order, and to
no other address, and it returns without reaching the fatal path; when the
previous free list `l` satisfies the free-list invariant and holds none of
those frames, the resulting free list is those frames in descending order
followed by `l`. -/
theorem free_range_spec (L : Layout) (hL : L.WF) (s : Kmem)
    (vstart vend : Nat) (_hse : vstart ≤ vend)
    (hstart : ROUNDUP vstart PGSIZE + PGSIZE < WORD) (hvend : vend + PGSIZE < WORD)
    (hrange : ∀ k, ROUNDUP vstart PGSIZE + (k + 1) * PGSIZE ≤ vend →
      L.kernel_end ≤ ROUNDUP vstart PGSIZE + k * PGSIZE ∧
      ROUNDUP vstart PGSIZE + (k + 1) * PGSIZE ≤ P2V L L.PHYSTOP) :
    free_range L s vstart vend = (rangeFrames vstart vend).foldlM (kfree L) s ∧
    (∀ x, x ∈ rangeFrames vstart vend ↔
      ∃ k, x = ROUNDUP vstart PGSIZE + k * PGSIZE ∧
        ROUNDUP vstart PGSIZE + (k + 1) * PGSIZE ≤ vend) ∧
    (rangeFrames vstart vend).Pairwise (fun a b => a < b) ∧
    (∃ s1, free_range L s vstart vend = Except.ok s1) ∧
    (∀ l, FreeListInv L s l → (∀ x ∈ rangeFrames vstart vend, x ∉ l) →
      ∃ s1, free_range L s vstart vend = Except.ok s1 ∧
        Chain s1.mem s1.free_list ((rangeFrames vstart vend).reverse ++ l)) := by
  have hval := rangeFrames_valid L vstart vend hrange
  have hfold := free_range_eq_fold L s vstart vend hstart hvend
  refine ⟨hfold, mem_rangeFrames vstart vend, pagesFrom_ascending _ _, ?_, ?_⟩
  · rw [hfold]
    exact kfree_fold_ok L hL _ s hval
  · intro l hinv hfresh
    obtain ⟨s1, h1, h2⟩ := kfree_fold_push L hL (rangeFrames vstart vend) s l hinv
      hval hfresh (rangeFrames_nodup vstart vend)
    exact ⟨s1, by rw [hfold]; exact h1, h2.1⟩

theorem L16_range (k : Nat)
    (h : ROUNDUP L16.kernel_end PGSIZE + (k + 1) * PGSIZE ≤ P2V L16 L16.PHYSTOP) :
    L16.kernel_end ≤ ROUNDUP L16.kernel_end PGSIZE + k * PGSIZE ∧
    ROUNDUP L16.kernel_end PGSIZE + (k + 1) * PGSIZE ≤ P2V L16 L16.PHYSTOP := by
  have h1 : ROUNDUP L16.kernel_end PGSIZE = L16.kernel_end := by decide
  exact ⟨by omega, h⟩

/-- Witness of C8 (amended): `alloc_init` on the empty allocator, that is
`free_range(end, P2V(PHYSTOP))` over the 16-frame arena. -/
theorem free_range_spec_witness :
    L16.WF ∧ L16.kernel_end ≤ P2V L16 L16.PHYSTOP ∧
    ROUNDUP L16.kernel_end PGSIZE + PGSIZE < WORD ∧ P2V L16 L16.PHYSTOP + PGSIZE < WORD ∧
    (free_range L16 boot L16.kernel_end (P2V L16 L16.PHYSTOP) =
      (rangeFrames L16.kernel_end (P2V L16 L16.PHYSTOP)).foldlM (kfree L16) boot ∧
    (∀ x, x ∈ rangeFrames L16.kernel_end (P2V L16 L16.PHYSTOP) ↔
      ∃ k, x = ROUNDUP L16.kernel_end PGSIZE + k * PGSIZE ∧
        ROUNDUP L16.kernel_end PGSIZE + (k + 1) * PGSIZE ≤ P2V L16 L16.PHYSTOP) ∧
    (rangeFrames L16.kernel_end (P2V L16 L16.PHYSTOP)).Pairwise (fun a b => a < b) ∧
    (∃ s1, free_range L16 boot L16.kernel_end (P2V L16 L16.PHYSTOP) = Except.ok s1) ∧
    (∀ l, FreeListInv L16 boot l →
      (∀ x ∈ rangeFrames L16.kernel_end (P2V L16 L16.PHYSTOP), x ∉ l) →
      ∃ s1, free_range L16 boot L16.kernel_end (P2V L16 L16.PHYSTOP) = Except.ok s1 ∧
        Chain s1.mem s1.free_list
          ((rangeFrames L16.kernel_end (P2V L16 L16.PHYSTOP)).reverse ++ l))) :=
  ⟨by decide, by decide, by decide, by decide,
    free_range_spec L16 (by decide) boot L16.kernel_end (P2V L16 L16.PHYSTOP) (by decide)
      (by decide) (by decide) L16_range⟩

/-- The call `alloc_init()` on the empty allocator, for every layout whose
kernel image ends at least two pages, and whose physical memory ends more than
one page, below the top of the address space (no pointer wraps): it is
`free_range(end, P2V(PHYSTOP))`, it returns, and the free list it leaves is
every complete page-aligned frame of the arena, each once, highest first. -/
theorem alloc_init_registers_arena (L : Layout) (hL : L.WF)
    (hend : L.kernel_end + 2 * PGSIZE ≤ WORD) (htop : P2V L L.PHYSTOP + PGSIZE < WORD)
    (m : Mem) :
    ∃ s1, alloc_init L ⟨m, 0⟩ = Except.ok s1 ∧
      Chain s1.mem s1.free_list (rangeFrames L.kernel_end (P2V L L.PHYSTOP)).reverse ∧
      (rangeFrames L.kernel_end (P2V L L.PHYSTOP)).Nodup ∧
      ∀ x, x ∈ rangeFrames L.kernel_end (P2V L L.PHYSTOP) ↔
        (x % PGSIZE = 0 ∧ L.kernel_end ≤ x ∧ x + PGSIZE ≤ P2V L L.PHYSTOP) := by
  have hup : L.kernel_end ≤ ROUNDUP L.kernel_end PGSIZE ∧
      ROUNDUP L.kernel_end PGSIZE % PGSIZE = 0 ∧
      ROUNDUP L.kernel_end PGSIZE < L.kernel_end + PGSIZE := by
    unfold ROUNDUP ROUNDDOWN
    unfold PGSIZE WORD at *
    omega
  have hrange : ∀ k, ROUNDUP L.kernel_end PGSIZE + (k + 1) * PGSIZE ≤ P2V L L.PHYSTOP →
      L.kernel_end ≤ ROUNDUP L.kernel_end PGSIZE + k * PGSIZE ∧
      ROUNDUP L.kernel_end PGSIZE + (k + 1) * PGSIZE ≤ P2V L L.PHYSTOP := by
    intro k hk
    exact ⟨by omega, hk⟩
  obtain ⟨s1, h1, h2⟩ := kfree_fold_push L hL (rangeFrames L.kernel_end (P2V L L.PHYSTOP))
    ⟨m, 0⟩ [] ⟨rfl, fun _ h => by cases h⟩
    (rangeFrames_valid L _ _ hrange) (fun _ _ h => by cases h) (rangeFrames_nodup _ _)
  refine ⟨s1, ?_, by simpa using h2.1, rangeFrames_nodup _ _, ?_⟩
  · unfold alloc_init
    rw [free_range_eq_fold L _ _ _ (by unfold PGSIZE at *; omega) htop]
    exact h1
  · intro x
    rw [mem_rangeFrames]
    constructor
    · rintro ⟨k, hx, hk⟩
      unfold PGSIZE at *
      omega
    · rintro ⟨hx1, hx2, hx3⟩
      refine ⟨(x - ROUNDUP L.kernel_end PGSIZE) / PGSIZE, ?_, ?_⟩ <;>
      · unfold PGSIZE at *
        omega

/-! ## The free-list invariant over reachable states -/

theorem nthNode_null (m : Mem) : ∀ n, nthNode m 0 n = 0
  | 0 => rfl
  | n + 1 => by simp [nthNode, next, nthNode_null m n]

theorem Chain.mem_nthNode (m : Mem) : ∀ (l : List Nat) (p x : Nat),
    Chain m p l → x ∈ l → ∃ n, nthNode m p n = x ∧ x ≠ 0
  | [], _, _, _, hx => by cases hx
  | y :: ys, p, x, h, hx => by
    unfold Chain at h
    obtain ⟨hp, hpy, hrest⟩ := h
    have shift : ∀ n, nthNode m p (n + 1) = nthNode m (load64 m y) n := by
      intro n
      induction n with
      | zero =>
        show next m p = load64 m y
        rw [← hpy]
        simp [next, hp]
      | succ n ih =>
        show next m (nthNode m p (n + 1)) = next m (nthNode m (load64 m y) n)
        rw [ih]
    rcases List.mem_cons.mp hx with h1 | h1
    · exact ⟨0, by rw [h1, ← hpy]; rfl, by omega⟩
    · obtain ⟨n, hn, hx0⟩ := Chain.mem_nthNode m ys (load64 m y) x hrest h1
      exact ⟨n + 1, by rw [shift n]; exact hn, hx0⟩

theorem NodesValid.kfree (L : Layout) (hL : L.WF) (s s1 : Kmem) (v : Nat) (hv : v < WORD)
    (hs : NodesValid L s) (h : kfree L s v = Except.ok s1) : NodesValid L s1 := by
  obtain ⟨hval, rfl⟩ := valid_of_kfree_ok L hL s s1 v hv h
  have hhead : s.free_list < WORD := by
    rcases hs 0 with h0 | h0
    · have : s.free_list = 0 := h0
      rw [this]
      decide
    · exact Valid.lt_word L _ h0
  have key : ∀ n, nthNode (store64 (memset s.mem v 1 PGSIZE) v s.free_list) v n = 0 ∨
      nthNode (store64 (memset s.mem v 1 PGSIZE) v s.free_list) v n = v ∨
      ∃ k, nthNode s.mem s.free_list k =
        nthNode (store64 (memset s.mem v 1 PGSIZE) v s.free_list) v n := by
    intro n
    induction n with
    | zero => right; left; rfl
    | succ n ih =>
      show next _ (nthNode _ v n) = 0 ∨ next _ (nthNode _ v n) = v ∨
        ∃ k, nthNode s.mem s.free_list k = next _ (nthNode _ v n)
      rcases ih with h0 | h0 | ⟨k, hk⟩
      · left
        rw [h0]
        rfl
      · right; right
        refine ⟨0, ?_⟩
        rw [h0]
        simp only [next, if_neg (Valid.ne_zero L hL v hval), load64_store64 _ _ _ hhead]
        rfl
      · by_cases hz : nthNode (store64 (memset s.mem v 1 PGSIZE) v s.free_list) v n = 0
        · left
          rw [hz]
          rfl
        · by_cases hvn : nthNode (store64 (memset s.mem v 1 PGSIZE) v s.free_list) v n = v
          · right; right
            refine ⟨0, ?_⟩
            rw [hvn]
            simp only [next, if_neg (Valid.ne_zero L hL v hval), load64_store64 _ _ _ hhead]
            rfl
          · right; right
            refine ⟨k + 1, ?_⟩
            show next s.mem (nthNode s.mem s.free_list k) = _
            rw [hk]
            have hvx : Valid L (nthNode (store64 (memset s.mem v 1 PGSIZE) v s.free_list) v n) := by
              rcases hs k with h1 | h1
              · rw [hk] at h1
                exact absurd h1 hz
              · rw [hk] at h1
                exact h1
            simp only [next, if_neg hz]
            exact (kfree_link_other _ _ _ _ hval.1 hvx.1 hvn).symm
  intro n
  rcases key n with h0 | h0 | ⟨k, hk⟩
  · left; exact h0
  · right
    show Valid L (nthNode _ v n)
    rw [h0]
    exact hval
  · rcases hs k with h1 | h1
    · left
      show nthNode _ v n = 0
      rw [← hk]
      exact h1
    · right
      show Valid L (nthNode _ v n)
      rw [← hk]
      exact h1

theorem NodesValid.free_range_loop (L : Layout) (hL : L.WF) (vend : Nat) :
    ∀ (fuel p : Nat) (s s1 : Kmem), p < WORD → NodesValid L s →
      free_range_loop L vend fuel p s = Except.ok s1 → NodesValid L s1
  | 0, _, _, _, _, _, h => by cases h
  | fuel + 1, p, s, s1, hp, hs, h => by
    rw [Kern.free_range_loop] at h
    split at h
    · cases hk : Kern.kfree L s p with
      | error e => rw [hk] at h; cases h
      | ok s2 =>
        rw [hk] at h
        exact NodesValid.free_range_loop L hL vend fuel _ s2 s1 (Nat.mod_lt _ (by decide))
          (NodesValid.kfree L hL s s2 p hp hs hk) h
    · injection h with h
      exact h ▸ hs

theorem ROUNDUP_lt_word (a n : Nat) : ROUNDUP a n < WORD := by
  unfold ROUNDUP ROUNDDOWN
  have : (a + n - 1) % WORD < WORD := Nat.mod_lt _ (by decide)
  omega

theorem NodesValid.kalloc (L : Layout) (s : Kmem) : NodesValid L (Kern.kalloc s).2 := by
  intro n
  left
  rw [kalloc_free_list_zero]
  exact nthNode_null _ n

theorem NodesValid.of_reachable (L : Layout) (hL : L.WF) (s : Kmem) (hr : Reachable L s) :
    NodesValid L s := by
  induction hr with
  | boot m => intro n; left; exact nthNode_null m n
  | kfree v _ hv hk ih => exact NodesValid.kfree L hL _ _ v hv ih hk
  | free_range a b _ _ _ hk ih =>
    exact NodesValid.free_range_loop L hL b _ _ _ _ (ROUNDUP_lt_word a PGSIZE) ih hk
  | alloc_init _ hk ih =>
    exact NodesValid.free_range_loop L hL _ _ _ _ _ (ROUNDUP_lt_word _ PGSIZE) ih hk
  | kalloc _ _ => exact NodesValid.kalloc L _

/-- C9 (free-list invariant): in every state reachable from the empty
allocator by `alloc_init`, `kfree`, `free_range` and `kalloc` calls that
return, every node of the free list (every non-null pointer met by following
`next` from the head, hence every element of the list when it is a chain) is
page-aligned and lies within `[kernel_end, P2V(PHYSTOP))`. -/
theorem free_list_invariant (L : Layout) (hL : L.WF) (s : Kmem) (hr : Reachable L s) :
    (∀ n, nthNode s.mem s.free_list n ≠ 0 →
      nthNode s.mem s.free_list n % PGSIZE = 0 ∧
      L.kernel_end ≤ nthNode s.mem s.free_list n ∧
      nthNode s.mem s.free_list n < P2V L L.PHYSTOP) ∧
    (∀ l, Chain s.mem s.free_list l →
      ∀ x ∈ l, x % PGSIZE = 0 ∧ L.kernel_end ≤ x ∧ x < P2V L L.PHYSTOP) := by
  have hs := NodesValid.of_reachable L hL s hr
  constructor
  · intro n hn
    rcases hs n with h | h
    · exact absurd h hn
    · exact h
  · intro l hc x hx
    obtain ⟨n, hn, hx0⟩ := Chain.mem_nthNode s.mem l s.free_list x hc hx
    rcases hs n with h | h
    · rw [hn] at h
      exact absurd h hx0
    · rw [hn] at h
      exact h

/-- Witness of C9: the state after `kfree(frameA)` then `kfree(frameB)`. -/
theorem free_list_invariant_witness :
    L16.WF ∧ Reachable L16 stateBA ∧
    ((∀ n, nthNode stateBA.mem stateBA.free_list n ≠ 0 →
      nthNode stateBA.mem stateBA.free_list n % PGSIZE = 0 ∧
      L16.kernel_end ≤ nthNode stateBA.mem stateBA.free_list n ∧
      nthNode stateBA.mem stateBA.free_list n < P2V L16 L16.PHYSTOP) ∧
    (∀ l, Chain stateBA.mem stateBA.free_list l →
      ∀ x ∈ l, x % PGSIZE = 0 ∧ L16.kernel_end ≤ x ∧ x < P2V L16 L16.PHYSTOP)) :=
  have hr : Reachable L16 stateBA :=
    Reachable.kfree frameB
      (Reachable.kfree frameA (Reachable.boot mem0) (by decide) rfl) (by decide) rfl
  ⟨by decide, hr, free_list_invariant L16 (by decide) stateBA hr⟩

/-! ## `map_region` -/

theorem load64_zero_of_bytes (m : Mem) (a : Nat) (h : ∀ j, j < 8 → m (a + j) = 0) :
    load64 m a = 0 := by
  have h0 := h 0 (by omega)
  simp only [Nat.add_zero] at h0
  simp [load64, h0, h 1 (by omega), h 2 (by omega), h 3 (by omega), h 4 (by omega),
    h 5 (by omega), h 6 (by omega), h 7 (by omega)]

theorem free_range_loop_mem_below (L : Layout) (vend : Nat) (hvend : vend + PGSIZE < WORD) :
    ∀ (fuel p : Nat) (s s1 : Kmem), p + PGSIZE < WORD →
      free_range_loop L vend fuel p s = Except.ok s1 →
      ∀ a, a < p → s1.mem a = s.mem a
  | 0, _, _, _, _, h, _, _ => by cases h
  | fuel + 1, p, s, s1, hp, h, a, ha => by
    have hmod : (p + PGSIZE) % WORD = p + PGSIZE := Nat.mod_eq_of_lt hp
    rw [free_range_loop] at h
    rw [hmod] at h
    split at h
    · cases hk : kfree L s p with
      | error e => rw [hk] at h; cases h
      | ok s2 =>
        rw [hk] at h
        rw [free_range_loop_mem_below L vend hvend fuel _ s2 s1 (by omega) h a (by omega)]
        by_cases hc : p % PGSIZE ≠ 0 ∨ p < L.kernel_end ∨ V2P L p ≥ L.PHYSTOP
        · simp only [kfree, if_pos hc] at hk
          cases hk
        · simp only [kfree, if_neg hc] at hk
          have hk2 := Except.ok.inj hk
          rw [← hk2]
          exact kfree_mem_outside _ _ _ _ (Or.inl ha)
    · have h2 := Except.ok.inj h
      rw [h2]

theorem vmState_root_zero (i : Nat) (hi : i < 512) :
    load64 vmState.mem (frameA + 8 * i) = 0 := by
  have hrun : free_range L16 (kalloc stateA).2 frameB (P2V L16 L16.PHYSTOP) =
      Except.ok vmState := rfl
  apply load64_zero_of_bytes
  intro j hj
  have hlt : frameA + 8 * i + j < ROUNDUP frameB PGSIZE := by
    have h1 : ROUNDUP frameB PGSIZE = 0xFFFF000000081000 := by decide
    rw [h1]
    unfold frameA
    omega
  rw [free_range_loop_mem_below L16 _ (by decide) _ _ _ _ (by decide) hrun _ hlt]
  show memset stateA.mem frameA 0 PGSIZE _ = 0
  rw [memset_inside _ _ _ _ _ (by omega) (by unfold PGSIZE; omega)]

theorem vmFail_eq :
    vmFail = ⟨store64 (memset (kalloc vmState).2.mem 0xFFFF00000008F000 0 PGSIZE) frameA
      (0xFFFF00000008F000 ||| PTE_P), 0⟩ := by
  rfl

theorem vmFail_table_zero (i : Nat) (hi : i < 512) :
    load64 vmFail.mem (0xFFFF00000008F000 + 8 * i) = 0 := by
  rw [vmFail_eq]
  apply load64_zero_of_bytes
  intro j hj
  show store64 _ frameA _ _ = 0
  rw [store64_outside _ _ _ _ (by unfold frameA; omega),
    memset_inside _ _ _ _ _ (by omega) (by unfold PGSIZE; omega)]

/-- C10 (code defect): `vmState` has the zero-filled root page `frameA`, no
page mapped and fifteen free frames, yet `map_region(root, 0x1000, 0x2500, pa,
perm)` returns -1 for every `pa` and `perm`: the first `kalloc` of the walk
empties the free list, the second one fails, and no leaf is written; the
first table stays linked in the root. -/
theorem map_region_fresh_root_fails :
    (kalloc stateA).1 = frameA ∧
    free_range L16 (kalloc stateA).2 frameB (P2V L16 L16.PHYSTOP) = Except.ok vmState ∧
    Chain vmState.mem vmState.free_list arena15 ∧
    (∀ i, i < 512 → load64 vmState.mem (frameA + 8 * i) = 0) ∧
    (∀ (junk : Nat → Nat) (fuel pa perm : Nat),
      map_region junk (fuel + 1) vmState frameA 0x1000 0x2500 pa perm =
        Except.ok (-1, vmFail)) ∧
    vmFail.free_list = 0 ∧
    load64 vmFail.mem frameA = (0xFFFF00000008F000 ||| PTE_P) ∧
    (∀ i, i < 512 → load64 vmFail.mem (0xFFFF00000008F000 + 8 * i) = 0) :=
  ⟨by decide, rfl, by decide, vmState_root_zero, fun _ _ _ _ => rfl, by decide, by decide,
    vmFail_table_zero⟩

/-! ## Validation of the free list -/

/-- C20 (code defect): on the 16-frame arena, whose `end` is page-aligned,
`alloc_init` registers the frame that starts at `end` itself (`kfree` accepts
`v = end`), and `check_free_list` called right after it aborts on that node:
its assertion is the strict `p > end`. -/
theorem check_free_list_rejects_first_frame :
    L16.kernel_end % PGSIZE = 0 ∧
    alloc_init L16 boot = Except.ok state16 ∧
    FreeListInv L16 state16 arena16 ∧
    L16.kernel_end ∈ arena16 ∧
    (∀ fuel, check_free_list L16 (fuel + 16) state16 = Except.error (Fault.panic "assert")) ∧
    (∀ fuel, check_free_list L16 fuel state16 ≠ Except.ok ()) := by
  have hpanic : ∀ fuel, check_free_list L16 (fuel + 16) state16 =
      Except.error (Fault.panic "assert") := fun _ => rfl
  refine ⟨by decide, rfl, by decide, by decide, hpanic, ?_⟩
  intro fuel
  by_cases h : 16 ≤ fuel
  · obtain ⟨k, rfl⟩ : ∃ k, fuel = k + 16 := ⟨fuel - 16, by omega⟩
    rw [hpanic k]
    intro hc
    cases hc
  · have hlt : fuel < 16 := by omega
    have hb : (check_free_list L16 fuel state16).toBool = false := by
      interval_cases fuel <;> decide
    intro hc
    rw [hc] at hb
    cases hb

/-! ## Distinct nodes -/

theorem stateAA_no_chain : ∀ l, ¬ Chain stateAA.mem frameA l
  | [] => by
    unfold Chain
    decide
  | x :: xs => by
    unfold Chain
    rintro ⟨_, hx, h⟩
    subst hx
    have hself : load64 stateAA.mem frameA = frameA := by decide
    rw [hself] at h
    exact stateAA_no_chain xs h

theorem mem_loopPages (vend : Nat) : ∀ (fuel p x : Nat), p < WORD →
    x ∈ loopPages vend fuel p → ∃ k, k < fuel ∧ x = (p + k * PGSIZE) % WORD
  | 0, _, _, _, h => by cases h
  | fuel + 1, p, x, hp, h => by
    rw [loopPages] at h
    split at h
    · rcases List.mem_cons.mp h with h1 | h1
      · exact ⟨0, by omega, by rw [h1]; simp [Nat.mod_eq_of_lt hp]⟩
      · obtain ⟨k, hk, hx⟩ := mem_loopPages vend fuel _ x (Nat.mod_lt _ (by decide)) h1
        refine ⟨k + 1, by omega, ?_⟩
        rw [hx]
        unfold PGSIZE WORD
        omega
    · cases h

theorem loopPages_nodup (vend : Nat) : ∀ (fuel p : Nat), fuel ≤ WORD / PGSIZE → p < WORD →
    (loopPages vend fuel p).Nodup
  | 0, _, _, _ => List.nodup_nil
  | fuel + 1, p, hf, hp => by
    rw [loopPages]
    split
    · refine List.nodup_cons.mpr ⟨?_, loopPages_nodup vend fuel _ (by omega)
        (Nat.mod_lt _ (by decide))⟩
      intro hmem
      obtain ⟨k, hk, hx⟩ := mem_loopPages vend fuel _ p (Nat.mod_lt _ (by decide)) hmem
      unfold PGSIZE WORD at *
      omega
    · exact List.nodup_nil

theorem loopPages_of_ok (L : Layout) (vend : Nat) : ∀ (fuel p : Nat) (s s1 : Kmem),
    free_range_loop L vend fuel p s = Except.ok s1 →
    loopPages vend fuel p = loopPages vend (fuel - 1) p
  | 0, _, _, _, h => by cases h
  | fuel + 1, p, s, s1, h => by
    rw [free_range_loop] at h
    by_cases hle : (p + PGSIZE) % WORD ≤ vend
    · rw [if_pos hle] at h
      cases hk : kfree L s p with
      | error e => rw [hk] at h; cases h
      | ok s2 =>
        rw [hk] at h
        have ih := loopPages_of_ok L vend fuel _ s2 s1 h
        cases fuel with
        | zero => cases h
        | succ g =>
          show loopPages vend (g + 1 + 1) p = loopPages vend (g + 1) p
          rw [loopPages, if_pos hle, ih]
          conv => rhs; rw [loopPages, if_pos hle]
          rfl
    · cases fuel with
      | zero => simp [loopPages, hle]
      | succ g =>
        show loopPages vend (g + 1 + 1) p = loopPages vend (g + 1) p
        rw [loopPages, if_neg hle, loopPages, if_neg hle]

theorem free_range_loop_distinct (L : Layout) (hL : L.WF) (vend : Nat) :
    ∀ (fuel p : Nat) (s s1 : Kmem) (l : List Nat), p < WORD → FreeListInv L s l → l.Nodup →
      (∀ x ∈ loopPages vend fuel p, x ∉ l) → (loopPages vend fuel p).Nodup →
      free_range_loop L vend fuel p s = Except.ok s1 →
      ∃ l1, FreeListInv L s1 l1 ∧ l1.Nodup
  | 0, _, _, _, _, _, _, _, _, _, h => by cases h
  | fuel + 1, p, s, s1, l, hp, hinv, hnd, hfresh, hpages, h => by
    rw [free_range_loop] at h
    rw [loopPages] at hfresh hpages
    by_cases hle : (p + PGSIZE) % WORD ≤ vend
    · rw [if_pos hle] at h hfresh hpages
      cases hk : kfree L s p with
      | error e => rw [hk] at h; cases h
      | ok s2 =>
        rw [hk] at h
        obtain ⟨hval, rfl⟩ := valid_of_kfree_ok L hL s s2 p hp hk
        have hpl : p ∉ l := hfresh p (List.mem_cons_self _ _)
        have hnd2 := List.nodup_cons.mp hpages
        refine free_range_loop_distinct L hL vend fuel _ _ s1 (p :: l)
          (mod_word_lt _)
          (kfree_push_inv L hL s l p hinv hval hpl) (List.nodup_cons.mpr ⟨hpl, hnd⟩) ?_
          hnd2.2 h
        intro x hx hmem
        rcases List.mem_cons.mp hmem with h1 | h1
        · rw [h1] at hx
          exact hnd2.1 hx
        · exact hfresh x (List.mem_cons_of_mem _ hx) h1
    · rw [if_neg hle] at h
      have h2 := Except.ok.inj h
      rw [← h2]
      exact ⟨l, hinv, hnd⟩

theorem free_range_distinct (L : Layout) (hL : L.WF) (s s1 : Kmem) (l : List Nat) (a b : Nat)
    (hinv : FreeListInv L s l) (hnd : l.Nodup)
    (hfresh : ∀ x ∈ freedPages a b, ∀ n, nthNode s.mem s.free_list n ≠ x)
    (h : free_range L s a b = Except.ok s1) : ∃ l1, FreeListInv L s1 l1 ∧ l1.Nodup := by
  have hp := ROUNDUP_lt_word a PGSIZE
  refine free_range_loop_distinct L hL b _ _ s s1 l hp hinv hnd ?_ ?_ h
  · intro x hx hmem
    obtain ⟨n, hn, _⟩ := Chain.mem_nthNode s.mem l s.free_list x hinv.1 hmem
    exact hfresh x hx n hn
  · have hfuel := loopPages_of_ok L b _ _ s s1 h
    rw [hfuel]
    exact loopPages_nodup b _ _ (Nat.le_of_eq (Nat.add_sub_cancel _ _)) hp

/-- C19 (counterexample): `kfree(frameA)` twice from the empty allocator is
accepted both times; the reachable state it leaves has `frameA` as its own
successor, so the same frame is met twice and no chain ends the list. -/
theorem kfree_twice_reachable_cycle :
    Reachable L16 stateAA ∧
    nthNode stateAA.mem stateAA.free_list 0 = frameA ∧
    nthNode stateAA.mem stateAA.free_list 1 = frameA ∧
    frameA ≠ 0 ∧
    ¬ ∃ l, Chain stateAA.mem stateAA.free_list l :=
  ⟨Reachable.kfree frameA
      (Reachable.kfree frameA (Reachable.boot mem0) (by decide) rfl) (by decide) rfl,
    by decide, by decide, by decide, fun ⟨l, h⟩ => stateAA_no_chain l h⟩

/-- C19 (amended): in every state reachable from the empty allocator by
`alloc_init`, `kfree`, `free_range` and `kalloc` calls that return and that
free no frame which is on the free list at that moment, the free list is a
chain that ends at the null pointer (acyclic), its nodes are pairwise
distinct, and each is a valid frame. -/
theorem free_list_distinct (L : Layout) (hL : L.WF) (s : Kmem) (hr : ReachableFresh L s) :
    ∃ l, Chain s.mem s.free_list l ∧ l.Nodup ∧ ∀ x ∈ l, Valid L x := by
  have key : ∃ l, FreeListInv L s l ∧ l.Nodup := by
    induction hr with
    | boot m => exact ⟨[], ⟨rfl, fun _ h => by cases h⟩, List.nodup_nil⟩
    | kfree v _ hv hfresh hk ih =>
      obtain ⟨l, hinv, hnd⟩ := ih
      obtain ⟨hval, rfl⟩ := valid_of_kfree_ok L hL _ _ v hv hk
      have hvl : v ∉ l := by
        intro hmem
        obtain ⟨n, hn, _⟩ := Chain.mem_nthNode _ l _ v hinv.1 hmem
        exact hfresh n hn
      exact ⟨v :: l, kfree_push_inv L hL _ l v hinv hval hvl, List.nodup_cons.mpr ⟨hvl, hnd⟩⟩
    | free_range a b _ _ _ hfresh hk ih =>
      obtain ⟨l, hinv, hnd⟩ := ih
      exact free_range_distinct L hL _ _ l a b hinv hnd hfresh hk
    | alloc_init _ hfresh hk ih =>
      obtain ⟨l, hinv, hnd⟩ := ih
      exact free_range_distinct L hL _ _ l _ _ hinv hnd hfresh hk
    | kalloc _ _ =>
      refine ⟨[], ⟨?_, fun _ h => by cases h⟩, List.nodup_nil⟩
      show Chain _ (Kern.kalloc _).2.free_list []
      rw [kalloc_free_list_zero]
      rfl
  obtain ⟨l, hinv, hnd⟩ := key
  exact ⟨l, hinv.1, hnd, hinv.2⟩

/-- Witness of C19 (amended): `kfree(frameA)` then `kfree(frameB)`. -/
theorem free_list_distinct_witness :
    L16.WF ∧ ReachableFresh L16 stateBA ∧
    ∃ l, Chain stateBA.mem stateBA.free_list l ∧ l.Nodup ∧ ∀ x ∈ l, Valid L16 x :=
  have hA : ReachableFresh L16 stateA :=
    ReachableFresh.kfree frameA (ReachableFresh.boot mem0) (by decide)
      (fun n h => by
        have h0 : nthNode mem0 0 n = 0 := nthNode_null _ n
        have h1 : (0 : Nat) = frameA := h0.symm.trans h
        exact absurd h1 (by decide)) rfl
  have hnode : ∀ n, nthNode stateA.mem stateA.free_list n ≠ frameB := by
    intro n
    have h0 : nthNode stateA.mem stateA.free_list 0 = frameA := rfl
    have h1 : ∀ k, nthNode stateA.mem stateA.free_list (k + 1) = 0 := by
      intro k
      induction k with
      | zero => decide
      | succ k ih =>
        show next _ (nthNode _ _ (k + 1)) = 0
        rw [ih]
        rfl
    cases n with
    | zero => rw [h0]; decide
    | succ k => rw [h1 k]; decide
  have hr : ReachableFresh L16 stateBA :=
    ReachableFresh.kfree frameB hA (by decide) hnode rfl
  ⟨by decide, hr, free_list_distinct L16 (by decide) stateBA hr⟩

/-! ## `pgdir_walk` -/

theorem pgdir_walk_from_noalloc (va pte : Nat) : ∀ (n level curr : Nat) (s : Kmem),
    (pgdir_walk_from va 0 pte n level curr s).2 = s ∧
    (entryAbsentOnPath s.mem va n level curr → (pgdir_walk_from va 0 pte n level curr s).1 = 0) ∧
    (¬ entryAbsentOnPath s.mem va n level curr →
      (pgdir_walk_from va 0 pte n level curr s).1 = pte)
  | 0, _, _, _ => ⟨rfl, fun h => absurd h (by unfold entryAbsentOnPath; exact not_false),
      fun _ => rfl⟩
  | n + 1, level, curr, s => by
    unfold pgdir_walk_from entryAbsentOnPath
    by_cases hp : load64 s.mem (curr + 8 * PTX level va) &&& PTE_P = 0
    · simp [hp]
    · obtain ⟨h1, h2, h3⟩ := pgdir_walk_from_noalloc va pte n (level + 1)
        (load64 s.mem (curr + 8 * PTX level va) &&& PTE_ADDR_MASK) s
      simp only [ne_eq, hp, not_false_eq_true, if_true, false_or]
      exact ⟨h1, h2, h3⟩

theorem pgdir_walk_from_empty (va pte : Nat) : ∀ (n level curr : Nat) (s : Kmem),
    s.free_list = 0 →
    pgdir_walk_from va 1 pte n level curr s = pgdir_walk_from va 0 pte n level curr s
  | 0, _, _, _, _ => rfl
  | n + 1, level, curr, s, h => by
    unfold pgdir_walk_from
    by_cases hp : load64 s.mem (curr + 8 * PTX level va) &&& PTE_P = 0
    · simp [hp, kalloc, h]
    · simp only [ne_eq, hp, not_false_eq_true, if_true]
      exact pgdir_walk_from_empty va pte n (level + 1) _ s h

/-- C13: when some table entry on the path of `va` is absent,
`pgdir_walk(root, va, alloc = 0)` returns `NULL` and the state it returns in
(memory, hence every page-table entry, and the free list) is the state it was
called in: no frame is taken. -/
theorem pgdir_walk_noalloc_absent (pte : Nat) (s : Kmem) (root va : Nat)
    (h : entryAbsentOnPath s.mem va 4 0 root) : pgdir_walk pte s root va 0 = (0, s) := by
  obtain ⟨h1, h2, _⟩ := pgdir_walk_from_noalloc va pte 4 0 root s
  exact Prod.ext (h2 h) h1

/-- Witness of C13: the zero-filled root of `vmState`, whose level-0 entry
for `0x1000` is absent. -/
theorem pgdir_walk_noalloc_absent_witness :
    entryAbsentOnPath vmState.mem 0x1000 4 0 frameA ∧
    pgdir_walk 0x200000 vmState frameA 0x1000 0 = (0, vmState) :=
  ⟨by decide, pgdir_walk_noalloc_absent 0x200000 vmState frameA 0x1000 (by decide)⟩

theorem pgdir_walk_from_state (va pte : Nat) (alloc : Int) : ∀ (n level curr : Nat) (s : Kmem),
    (pgdir_walk_from va alloc pte n level curr s).2 = s ∨
    (pgdir_walk_from va alloc pte n level curr s).2.free_list = 0
  | 0, _, _, _ => Or.inl rfl
  | n + 1, level, curr, s => by
    rw [pgdir_walk_from]
    dsimp only
    by_cases hp : load64 s.mem (curr + 8 * PTX level va) &&& PTE_P ≠ 0
    · rw [if_pos hp]
      exact pgdir_walk_from_state va pte alloc n _ _ s
    · rw [if_neg hp]
      by_cases ha : alloc = 0
      · rw [if_pos ha]
        exact Or.inl rfl
      · rw [if_neg ha]
        by_cases hk : (kalloc s).1 = 0
        · rw [if_pos hk]
          left
          have hs : s.free_list = 0 := by
            by_contra hne
            simp [kalloc, hne] at hk
          simp [kalloc, hs]
        · rw [if_neg hk]
          right
          rcases pgdir_walk_from_state va pte alloc n (level + 1) (kalloc s).1
            ⟨store64 (memset (kalloc s).2.mem (kalloc s).1 0 PGSIZE)
              (curr + 8 * PTX level va) ((kalloc s).1 ||| PTE_P), (kalloc s).2.free_list⟩
            with h | h
          · rw [h]
            exact kalloc_free_list_zero s
          · exact h

theorem mask_aligned (x : Nat) : (x &&& PTE_ADDR_MASK) % 8 = 0 := by
  have h : (x &&& PTE_ADDR_MASK) % 2 ^ 12 = 0 := by
    rw [← Nat.and_pow_two_sub_one_eq_mod, Nat.and_assoc]
    have : PTE_ADDR_MASK &&& (2 ^ 12 - 1) = 0 := by decide
    rw [this, Nat.and_zero]
  omega

theorem PTX_lt (level va : Nat) : PTX level va < 512 := by
  have : PTX level va ≤ 0x1FF := Nat.and_le_right
  omega

theorem kalloc_of_nonempty (s : Kmem) (h : s.free_list ≠ 0) :
    kalloc s = (s.free_list, ⟨memset s.mem s.free_list 0 PGSIZE, 0⟩) := by
  simp only [kalloc, if_neg h]
  rw [load64_memset_zero _ _ _ (by decide)]

theorem pgdir_walk_from_step_present (va pte : Nat) (alloc : Int) (n level curr : Nat)
    (s : Kmem) (hp : load64 s.mem (curr + 8 * PTX level va) &&& PTE_P ≠ 0) :
    pgdir_walk_from va alloc pte (n + 1) level curr s =
      pgdir_walk_from va alloc pte n (level + 1)
        (load64 s.mem (curr + 8 * PTX level va) &&& PTE_ADDR_MASK) s := by
  rw [pgdir_walk_from]
  dsimp only
  rw [if_pos hp]

theorem pgdir_walk_from_step_empty (va pte : Nat) (n level curr : Nat) (s : Kmem)
    (hp : ¬ load64 s.mem (curr + 8 * PTX level va) &&& PTE_P ≠ 0) (hs : s.free_list = 0) :
    pgdir_walk_from va 1 pte (n + 1) level curr s = (0, s) := by
  rw [pgdir_walk_from]
  dsimp only
  rw [if_neg hp]
  simp [kalloc, hs]

theorem pgdir_walk_from_step_alloc (va pte : Nat) (n level curr : Nat) (s : Kmem)
    (hp : ¬ load64 s.mem (curr + 8 * PTX level va) &&& PTE_P ≠ 0) (hs : s.free_list ≠ 0) :
    pgdir_walk_from va 1 pte (n + 1) level curr s =
      pgdir_walk_from va 1 pte n (level + 1) s.free_list
        ⟨store64 (memset (memset s.mem s.free_list 0 PGSIZE) s.free_list 0 PGSIZE)
          (curr + 8 * PTX level va) (s.free_list ||| PTE_P), 0⟩ := by
  rw [pgdir_walk_from]
  dsimp only
  rw [if_neg hp, kalloc_of_nonempty s hs]
  simp [hs]

theorem pgdir_walk_from_after_alloc (va pte : Nat) (n level curr : Nat) (s : Kmem)
    (hs : s.free_list = 0) :
    (pgdir_walk_from va 1 pte n level curr s).2 = s ∧
    (entryAbsentOnPath s.mem va n level curr →
      (pgdir_walk_from va 1 pte n level curr s).1 = 0) := by
  rw [pgdir_walk_from_empty va pte n level curr s hs]
  exact ⟨(pgdir_walk_from_noalloc va pte n level curr s).1,
    (pgdir_walk_from_noalloc va pte n level curr s).2.1⟩

theorem alloc_mem_outside (m : Mem) (P e v a : Nat) (hP : a + 8 ≤ P ∨ P + PGSIZE ≤ a)
    (he : a + 8 ≤ e ∨ e + 8 ≤ a) :
    load64 (store64 (memset (memset m P 0 PGSIZE) P 0 PGSIZE) e v) a = load64 m a := by
  apply load64_congr
  intro i hi
  rw [store64_outside _ _ _ _ (by omega), memset_outside _ _ _ _ _ (by omega),
    memset_outside _ _ _ _ _ (by omega)]

theorem alloc_mem_inside (m : Mem) (P e v a : Nat) (ha1 : P ≤ a) (ha2 : a + 8 ≤ P + PGSIZE)
    (he : e + 8 ≤ P ∨ P + PGSIZE ≤ e) :
    load64 (store64 (memset (memset m P 0 PGSIZE) P 0 PGSIZE) e v) a = 0 := by
  apply load64_zero_of_bytes
  intro j hj
  rw [store64_outside _ _ _ _ (by omega), memset_inside _ _ _ _ _ (by omega) (by omega)]

theorem pgdir_walk_from_preserves (va pte : Nat) : ∀ (n level curr : Nat) (s : Kmem) (a : Nat),
    curr % 8 = 0 → a % 8 = 0 →
    (s.free_list ≠ 0 → a + 8 ≤ s.free_list ∨ s.free_list + PGSIZE ≤ a) →
    load64 s.mem a &&& PTE_P ≠ 0 →
    load64 (pgdir_walk_from va 1 pte n level curr s).2.mem a = load64 s.mem a
  | 0, _, _, _, _, _, _, _, _ => rfl
  | n + 1, level, curr, s, a, hc, ha, hfree, hpres => by
    by_cases hp : load64 s.mem (curr + 8 * PTX level va) &&& PTE_P ≠ 0
    · rw [pgdir_walk_from_step_present va pte 1 n level curr s hp]
      exact pgdir_walk_from_preserves va pte n _ _ s a (mask_aligned _) ha hfree hpres
    · by_cases hs : s.free_list = 0
      · rw [pgdir_walk_from_step_empty va pte n level curr s hp hs]
      · rw [pgdir_walk_from_step_alloc va pte n level curr s hp hs,
          (pgdir_walk_from_after_alloc va pte n _ _ _ rfl).1]
        have hne : a ≠ curr + 8 * PTX level va := by
          intro h
          rw [h] at hpres
          exact hp hpres
        exact alloc_mem_outside _ _ _ _ _ (hfree hs) (by omega)

theorem pgdir_walk_from_success (va pte : Nat) : ∀ (n level curr : Nat) (s : Kmem),
    curr % 8 = 0 →
    (s.free_list ≠ 0 →
      pathOutside s.mem va s.free_list (s.free_list + PGSIZE) (n + 1) level curr) →
    (pgdir_walk_from va 1 pte (n + 1) level curr s).1 ≠ 0 →
    ¬ entryAbsentOnPath (pgdir_walk_from va 1 pte (n + 1) level curr s).2.mem va n level curr
  | 0, _, _, _, _, _, _ => by
    unfold entryAbsentOnPath
    exact not_false
  | n + 1, level, curr, s, hc, hfree, hres => by
    by_cases hp : load64 s.mem (curr + 8 * PTX level va) &&& PTE_P ≠ 0
    · rw [pgdir_walk_from_step_present va pte 1 (n + 1) level curr s hp] at hres ⊢
      have hpath : s.free_list ≠ 0 → pathOutside s.mem va s.free_list (s.free_list + PGSIZE)
          (n + 1) (level + 1) (load64 s.mem (curr + 8 * PTX level va) &&& PTE_ADDR_MASK) := by
        intro hs
        have := hfree hs
        unfold pathOutside at this
        exact this.2 hp
      have ih := pgdir_walk_from_success va pte n (level + 1) _ s (mask_aligned _) hpath hres
      have hkeep := pgdir_walk_from_preserves va pte (n + 1) (level + 1)
        (load64 s.mem (curr + 8 * PTX level va) &&& PTE_ADDR_MASK) s
        (curr + 8 * PTX level va) (mask_aligned _) (by omega)
        (fun hs => by
          have := hfree hs
          unfold pathOutside at this
          exact this.1) hp
      unfold entryAbsentOnPath
      rw [hkeep]
      intro habs
      rcases habs with h | h
      · exact hp h
      · exact ih h
    · exfalso
      by_cases hs : s.free_list = 0
      · rw [pgdir_walk_from_step_empty va pte (n + 1) level curr s hp hs] at hres
        exact hres rfl
      · rw [pgdir_walk_from_step_alloc va pte (n + 1) level curr s hp hs] at hres
        apply hres
        refine (pgdir_walk_from_after_alloc va pte (n + 1) _ _ _ rfl).2 ?_
        unfold entryAbsentOnPath
        left
        have hout := (hfree hs)
        unfold pathOutside at hout
        have hidx := PTX_lt (level + 1) va
        show load64 (store64 _ _ _) _ &&& PTE_P = 0
        rw [alloc_mem_inside _ _ _ _ _ (by omega) (by unfold PGSIZE; omega) hout.1]
        rfl

/-- C16 (counterexample): two inputs.  With a zero-filled root and exactly
one free frame, `pgdir_walk(root, 0x1000, alloc = 1)` returns `NULL` although
it has taken the frame and linked it in the root: the allocator is exhausted
at the next level and nothing is rolled back.  And in `vmAlias`, where the
level-1 table page is also the head of the free list, the walk returns a
non-`NULL` value after zero-filling that table, so an intermediate table on
the path is absent when it returns. -/
theorem pgdir_walk_partial_path :
    (kfree L16 (kalloc stateA).2 frameB = Except.ok vmOne ∧
    Chain vmOne.mem vmOne.free_list [frameB] ∧
    load64 vmOne.mem frameA = 0 ∧
    (pgdir_walk 0x200000 vmOne frameA 0x1000 1).1 = 0 ∧
    (pgdir_walk 0x200000 vmOne frameA 0x1000 1).2.free_list = 0 ∧
    load64 (pgdir_walk 0x200000 vmOne frameA 0x1000 1).2.mem frameA = (frameB ||| PTE_P)) ∧
    (¬ entryAbsentOnPath vmAlias.mem 0x1000 3 0 0x100000 ∧
    (pgdir_walk strayPtr vmAlias 0x100000 0x1000 1).1 ≠ 0 ∧
    entryAbsentOnPath (pgdir_walk strayPtr vmAlias 0x100000 0x1000 1).2.mem 0x1000 3 0
      0x100000) :=
  ⟨⟨rfl, by decide, by decide, by decide, by decide, by decide⟩,
    by decide, by decide, by decide⟩

/-- C16 (amended): for every 8-byte-aligned root, every `va` and every
allocator state in which the frame at the head of the free list holds no
entry on the path of `va`: after `pgdir_walk` with `alloc = 1` either a
non-`NULL` value is returned and every intermediate table on the path of `va`
is present, or `NULL` is returned; and no page-table entry was changed unless
a frame was taken from the allocator. -/
theorem pgdir_walk_no_rollback (pte : Nat) (s : Kmem) (root va : Nat) (hroot : root % 8 = 0)
    (hfree : s.free_list ≠ 0 →
      pathOutside s.mem va s.free_list (s.free_list + PGSIZE) 4 0 root) :
    ((pgdir_walk pte s root va 1).1 ≠ 0 →
      ¬ entryAbsentOnPath (pgdir_walk pte s root va 1).2.mem va 3 0 root) ∧
    ((pgdir_walk pte s root va 1).2.free_list = s.free_list →
      (pgdir_walk pte s root va 1).2 = s) := by
  refine ⟨pgdir_walk_from_success va pte 3 0 root s hroot hfree, ?_⟩
  intro hfl
  rcases pgdir_walk_from_state va pte 1 4 0 root s with h | h
  · exact h
  · have h0 : (pgdir_walk pte s root va 1).2.free_list = 0 := h
    exact (pgdir_walk_from_after_alloc va pte 4 0 root s (by rw [← hfl]; exact h0)).1

/-- Witness of C16 (amended): the walk of `0x1000` in `vmReady`, whose free
frame `0xFFFF00000008C000` holds no entry of the path. -/
theorem pgdir_walk_no_rollback_witness :
    frameA % 8 = 0 ∧
    pathOutside vmReady.mem 0x1000 vmReady.free_list (vmReady.free_list + PGSIZE) 4 0 frameA ∧
    (((pgdir_walk strayPtr vmReady frameA 0x1000 1).1 ≠ 0 →
      ¬ entryAbsentOnPath (pgdir_walk strayPtr vmReady frameA 0x1000 1).2.mem 0x1000 3 0
        frameA) ∧
    ((pgdir_walk strayPtr vmReady frameA 0x1000 1).2.free_list = vmReady.free_list →
      (pgdir_walk strayPtr vmReady frameA 0x1000 1).2 = vmReady)) :=
  ⟨by decide, by decide,
    pgdir_walk_no_rollback strayPtr vmReady frameA 0x1000 (by decide) (fun _ => by decide)⟩

/-- C17 (code defect): from the zero-filled root of `vmState`, with fifteen
free frames, `pgdir_walk(root, 0x1000, 1)` returns `NULL` after linking one
table and leaves the free list empty, instead of taking exactly three frames;
and in `vmReady`, where the tables of levels 0 to 2 exist, it allocates a page
for the terminal level as well and sets `PTE_P` in the leaf entry of
`0x1000`. -/
theorem pgdir_walk_takes_wrong_frames :
    Chain vmState.mem vmState.free_list arena15 ∧
    (∀ pte, pgdir_walk pte vmState frameA 0x1000 1 = (0, vmFail)) ∧
    vmFail.free_list = 0 ∧
    load64 vmFail.mem frameA = (0xFFFF00000008F000 ||| PTE_P) ∧
    Chain vmReady.mem vmReady.free_list [0xFFFF00000008C000] ∧
    ¬ entryAbsentOnPath vmReady.mem 0x1000 3 0 frameA ∧
    load64 vmReady.mem (0x8D000 + 8 * PTX 3 0x1000) = 0 ∧
    (∀ pte, pgdir_walk pte vmReady frameA 0x1000 1 = (pte, vmFull)) ∧
    load64 vmFull.mem (0x8D000 + 8 * PTX 3 0x1000) = (0xFFFF00000008C000 ||| PTE_P) ∧
    load64 vmFull.mem (0x8D000 + 8 * PTX 3 0x1000) &&& PTE_P ≠ 0 :=
  ⟨by decide, fun _ => rfl, by decide, by decide, by decide, by decide, by decide,
    fun _ => rfl, by decide, by decide⟩

/-- C12 (code defect): in `vmFull` every entry on the path of `0x1000` is
present and the leaf slot is entry `PTX(3, 0x1000)` of the table at `0x8D000`,
yet `pgdir_walk` returns whatever its uninitialised local `pte` holds: `NULL`
when that is 0, the stray address `strayPtr` when it is that; the slot
address the walk computed is not what is returned. -/
theorem pgdir_walk_returns_uninitialised :
    load64 vmFull.mem (frameA + 8 * PTX 0 0x1000) &&& PTE_P ≠ 0 ∧
    load64 vmFull.mem (frameA + 8 * PTX 0 0x1000) &&& PTE_ADDR_MASK = 0x8F000 ∧
    load64 vmFull.mem (0x8F000 + 8 * PTX 1 0x1000) &&& PTE_P ≠ 0 ∧
    load64 vmFull.mem (0x8F000 + 8 * PTX 1 0x1000) &&& PTE_ADDR_MASK = 0x8E000 ∧
    load64 vmFull.mem (0x8E000 + 8 * PTX 2 0x1000) &&& PTE_P ≠ 0 ∧
    load64 vmFull.mem (0x8E000 + 8 * PTX 2 0x1000) &&& PTE_ADDR_MASK = 0x8D000 ∧
    load64 vmFull.mem (0x8D000 + 8 * PTX 3 0x1000) &&& PTE_P ≠ 0 ∧
    (∀ (pte : Nat) (alloc : Int), pgdir_walk pte vmFull frameA 0x1000 alloc = (pte, vmFull)) ∧
    (pgdir_walk 0 vmFull frameA 0x1000 0).1 = 0 ∧
    (pgdir_walk strayPtr vmFull frameA 0x1000 0).1 ≠ 0x8D000 + 8 * PTX 3 0x1000 :=
  ⟨by decide, by decide, by decide, by decide, by decide, by decide, by decide,
    fun _ _ => rfl, by decide, by decide⟩

/-- C18 (code defect): the walk of `0x1000` with `alloc = 1` succeeds in
`vmReady` and stores the page `0xFFFF00000008C000` with `PTE_P`; the address
read back from that entry through the mask is `0x8C000`, not the page stored,
and the same holds for the level-0 entry, which an earlier walk stored: the
walk after it wrote its table at `0x8F000`, not in the page
`0xFFFF00000008F000`.  The following walk with `alloc = 0` leaves the state
unchanged and returns its own uninitialised `pte`. -/
theorem pgdir_walk_readback_differs :
    (pgdir_walk strayPtr vmReady frameA 0x1000 1 = (strayPtr, vmFull)) ∧
    strayPtr ≠ 0 ∧
    load64 vmFull.mem (0x8D000 + 8 * PTX 3 0x1000) = (0xFFFF00000008C000 ||| PTE_P) ∧
    load64 vmFull.mem (0x8D000 + 8 * PTX 3 0x1000) &&& PTE_ADDR_MASK = 0x8C000 ∧
    (pgdir_walk strayPtr vmState frameA 0x1000 1).2 = vmFail ∧
    load64 vmFail.mem (frameA + 8 * PTX 0 0x1000) = (0xFFFF00000008F000 ||| PTE_P) ∧
    load64 vmFail.mem (frameA + 8 * PTX 0 0x1000) &&& PTE_ADDR_MASK = 0x8F000 ∧
    kfree L16 vmFail 0xFFFF00000008E000 = Except.ok vmRefill1 ∧
    (pgdir_walk strayPtr vmRefill1 frameA 0x1000 1).2 = vmFail2 ∧
    load64 vmFail2.mem (0x8F000 + 8 * PTX 1 0x1000) = (0xFFFF00000008E000 ||| PTE_P) ∧
    load64 vmFail2.mem (0xFFFF00000008F000 + 8 * PTX 1 0x1000) = 0 ∧
    (∀ pte, pgdir_walk pte vmFull frameA 0x1000 0 = (pte, vmFull)) :=
  ⟨rfl, by decide, by decide, by decide, rfl, by decide, by decide, rfl, rfl, by decide,
    by decide, fun _ => rfl⟩

/-! ## `map_region` through the pointer `pgdir_walk` returns -/

theorem vm_history :
    kfree L16 vmFail 0xFFFF00000008E000 = Except.ok vmRefill1 ∧
    (∀ pte, pgdir_walk pte vmRefill1 frameA 0x1000 1 = (0, vmFail2)) ∧
    kfree L16 vmFail2 0xFFFF00000008D000 = Except.ok vmRefill2 ∧
    (∀ pte, pgdir_walk pte vmRefill2 frameA 0x1000 1 = (0, vmFail3)) ∧
    kfree L16 vmFail3 0xFFFF00000008C000 = Except.ok vmReady ∧
    (∀ pte, pgdir_walk pte vmReady frameA 0x1000 1 = (pte, vmFull)) :=
  ⟨rfl, fun _ => rfl, rfl, fun _ => rfl, rfl, fun _ => rfl⟩

theorem map_region_step_value (junk : Nat → Nat) (pgdir vend perm fuel i start pa : Nat)
    (s : Kmem) (h1 : (pgdir_walk (junk i) s pgdir start 1).1 ≠ 0)
    (h2 : load64 (pgdir_walk (junk i) s pgdir start 1).2.mem
      (pgdir_walk (junk i) s pgdir start 1).1 &&& PTE_P = 0)
    (h3 : start = vend) :
    ∃ s1, map_region_loop junk pgdir vend perm (fuel + 1) i start pa s = Except.ok (0, s1) ∧
      load64 s1.mem (pgdir_walk (junk i) s pgdir start 1).1 =
        ((pa <<< PGSHIFT) % WORD) ||| ((perm ||| PTE_P ||| PTE_TABLE ||| PTE_AF) % WORD) := by
  have hw1 : (pa <<< PGSHIFT) % WORD < 2 ^ 64 := Nat.mod_lt _ (by decide)
  have hw2 : (perm ||| PTE_P ||| PTE_TABLE ||| PTE_AF) % WORD < 2 ^ 64 :=
    Nat.mod_lt _ (by decide)
  subst h3
  simp only [map_region_loop, if_neg h1, h2, ne_eq, not_true_eq_false, if_false, if_true]
  refine ⟨_, rfl, ?_⟩
  show load64 (store64 _ _ _) _ = _
  rw [load64_store64 _ _ _ (by
    rw [load64_store64 _ _ _ hw1]
    exact Nat.or_lt_two_pow hw1 hw2), load64_store64 _ _ _ hw1]

/-- C11 (code defect): in `vmFull` the walk of `0x1000` succeeds, and the
entry `map_region` then writes through the returned pointer is
`(pa << PGSHIFT) | perm | PTE_P | PTE_TABLE | PTE_AF` for every `pa` and
`perm`; for `pa = 0x80000000` its address field is `0x80000000000`, not the
physical page `0x80000000`. -/
theorem map_region_leaf_shifted :
    (∀ pa perm, ∃ s1,
      map_region (fun _ => strayPtr) 1 vmFull frameA 0x1000 0x1000 pa perm =
        Except.ok (0, s1) ∧
      load64 s1.mem strayPtr =
        ((pa <<< PGSHIFT) % WORD) ||| ((perm ||| PTE_P ||| PTE_TABLE ||| PTE_AF) % WORD)) ∧
    (((0x80000000 <<< PGSHIFT) % WORD) ||| ((0 ||| PTE_P ||| PTE_TABLE ||| PTE_AF) % WORD))
      &&& PTE_ADDR_MASK = 0x80000000000 ∧
    (((0x80000000 <<< PGSHIFT) % WORD) ||| ((0 ||| PTE_P ||| PTE_TABLE ||| PTE_AF) % WORD))
      ≠ (0x80000000 ||| 0 ||| PTE_P ||| PTE_TABLE ||| PTE_AF) := by
  refine ⟨fun pa perm => ?_, by decide, by decide⟩
  exact map_region_step_value (fun _ => strayPtr) frameA _ perm 0 0 _ pa vmFull
    (by decide) (by decide) (by decide)

/-- C14 (code defect): in `vmFull` the leaf entry of page `0x1000` is
present, yet `map_region` over that page panics only if the word at the
uninitialised pointer it got from `pgdir_walk` has `PTE_P` set; with the stray
pointer `strayPtr` it returns 0 without reaching the fatal path. -/
theorem map_region_duplicate_not_detected :
    load64 vmFull.mem (0x8D000 + 8 * PTX 3 0x1000) &&& PTE_P ≠ 0 ∧
    (∀ (junk : Nat → Nat) (fuel pa perm : Nat),
      map_region junk (fuel + 1) vmFull frameA 0x1000 0x1000 pa perm =
        if junk 0 = 0 then Except.ok (-1, vmFull)
        else if load64 vmFull.mem (junk 0) &&& PTE_P ≠ 0 then
          Except.error (Fault.panic "map_region: page returned by pgdir_walk invalid")
        else Except.ok (0, ⟨store64 (store64 vmFull.mem (junk 0) ((pa <<< PGSHIFT) % WORD))
          (junk 0) (load64 (store64 vmFull.mem (junk 0) ((pa <<< PGSHIFT) % WORD)) (junk 0) |||
            ((perm ||| PTE_P ||| PTE_TABLE ||| PTE_AF) % WORD)), vmFull.free_list⟩)) ∧
    load64 vmFull.mem strayPtr &&& PTE_P = 0 ∧
    ∃ s1, map_region (fun _ => strayPtr) 1 vmFull frameA 0x1000 0x1000 0x80000000 0 =
        Except.ok (0, s1) ∧
      load64 s1.mem (0x8D000 + 8 * PTX 3 0x1000) =
        load64 vmFull.mem (0x8D000 + 8 * PTX 3 0x1000) :=
  ⟨by decide, fun _ _ _ _ => rfl, by decide, _, rfl, by decide⟩

/-! ## `vm_free` -/

theorem vm_free_below_end (L : Layout) (cond : Mem → Nat → Nat → Nat → Bool) (fuel : Nat)
    (s : Kmem) (g level : Nat) (hg : g < L.kernel_end) (s1 : Kmem) :
    vm_free L cond fuel s g level ≠ Except.ok s1 := by
  cases fuel with
  | zero =>
    intro h
    cases h
  | succ f =>
    unfold vm_free
    cases vm_free_loop cond (vm_free L cond f) g level 512 0 s with
    | error e =>
      intro h
      cases h
    | ok s2 =>
      have hrej : g % PGSIZE ≠ 0 ∨ g < L.kernel_end ∨ V2P L g ≥ L.PHYSTOP :=
        Or.inr (Or.inl hg)
      simp only [kfree, if_pos hrej]
      intro h
      cases h

theorem vm_free_loop_vmFail (cond : Mem → Nat → Nat → Nat → Bool) (f : Nat) :
    ∃ e, vm_free_loop cond (vm_free L16 cond f) frameA 0 512 0 vmFail = Except.error e := by
  have he : load64 (store64 vmFail.mem 0 (load64 vmFail.mem (frameA + 8 * 0))) 0 =
      0xFFFF00000008F001 := by
    rw [load64_store64 _ _ _ (load64_lt _ _)]
    decide
  rw [show (512 : Nat) = 511 + 1 from rfl, vm_free_loop]
  simp only [he]
  by_cases hc : cond (store64 vmFail.mem 0 (load64 vmFail.mem (frameA + 8 * 0))) frameA 0 0 = true
  · rw [if_pos hc]
    cases hchild : vm_free L16 cond f
        ⟨store64 vmFail.mem 0 (load64 vmFail.mem (frameA + 8 * 0)), vmFail.free_list⟩
        (0xFFFF00000008F001 >>> PGSHIFT) (0 + 1) with
    | ok s2 =>
      exact absurd hchild (vm_free_below_end L16 cond f _ _ _ (by decide) s2)
    | error e => exact ⟨e, rfl⟩
  · rw [if_neg hc, if_pos (by decide)]
    exact ⟨_, rfl⟩

/-- C15 (code defect): `vmFail` is the hierarchy `map_region` built from the
empty root `frameA` with one table page.  Whatever the condition of the `if`
line missing from the source is, `vm_free(root, 0)` does not return there: a
present entry either takes the `panic("vm_free: leaf")` branch or is followed
as `entry >> PGSHIFT`, an address below `end` that the closing `kfree` of the
recursive call rejects. -/
theorem vm_free_never_returns :
    (∀ (junk : Nat → Nat) (fuel pa perm : Nat),
      map_region junk (fuel + 1) vmState frameA 0x1000 0x2500 pa perm =
        Except.ok (-1, vmFail)) ∧
    load64 vmFail.mem (frameA + 8 * 0) = (0xFFFF00000008F000 ||| PTE_P) ∧
    (0xFFFF00000008F000 ||| PTE_P) >>> PGSHIFT < L16.kernel_end ∧
    ∀ (cond : Mem → Nat → Nat → Nat → Bool) (fuel : Nat) (s1 : Kmem),
      vm_free L16 cond fuel vmFail frameA 0 ≠ Except.ok s1 := by
  refine ⟨fun _ _ _ _ => rfl, by decide, by decide, ?_⟩
  intro cond fuel s1
  cases fuel with
  | zero =>
    intro h
    cases h
  | succ f =>
    obtain ⟨e, he⟩ := vm_free_loop_vmFail cond f
    unfold vm_free
    rw [he]
    intro h
    cases h

end Kern
